import Mathlib

/-!
# Hikari obfuscation passes: ConstantEncryption and AntiHook

A shallow embedding of `ConstantEncryption.cpp` and of the block-level
instrumentation of `AntiHooking.cpp`, over a small model of the LLVM
program representation (module, functions, basic blocks, instructions,
values), followed by theorems about the embedded code.
-/

namespace Hikari

/-! ## Program representation -/

/-- An integer literal: `ConstantInt` of an `IntegerType` of `width` bits.
The value is kept reduced modulo `2 ^ width`. -/
structure ConstantInt where
  width : Nat
  val : Nat
  deriving DecidableEq, Repr

/-- The call `ConstantInt::get(IT, V)`: an `APInt` of the type's width is built
from `V`, which drops the bits above the width. -/
def ConstantInt.get (width : Nat) (V : Nat) : ConstantInt :=
  { width := width, val := V % 2 ^ width }

/-- Operands of instructions (`llvm::Value`). -/
inductive Value where
  /-- an integer literal -/
  | constInt (c : ConstantInt)
  /-- the result of the instruction with this identity -/
  | inst (id : Nat)
  /-- the address of a global variable -/
  | global (g : Nat)
  /-- a constant pointer cast, or all-zero index expression, of the address
  of a global variable -/
  | castGlobal (g : Nat)
  /-- the address of a function, by name -/
  | func (name : String)
  /-- an inline assembly callee -/
  | inlineAsm (text : String)
  /-- a formal argument of the enclosing function -/
  | arg (i : Nat)
  /-- a basic block used as a branch target -/
  | block (label : Nat)
  /-- a constant string (the initializer of a string global) -/
  | cstring (s : String)
  /-- any other constant -/
  | other (n : Nat)
  deriving DecidableEq, Repr

/-- Instruction kinds, as far as the two passes tell them apart. -/
inductive Opcode where
  | add | xor | or | lshr | otherBinOp
  | icmpEq
  | load | store
  | br | condBr | switch | ret | unreachable
  | phi | getElementPtr
  | intrinsic | dbgInfoIntrinsic | lifetime | pseudoProbe
  | call | bitCast | ptrToInt | intToPtr
  | other
  deriving DecidableEq, Repr

/-- An instruction. `ty` is the bit width of the result when the result type
is an integer type. -/
structure Instruction where
  id : Nat
  opcode : Opcode
  operands : List Value
  ty : Option Nat
  atomic : Bool
  deriving DecidableEq, Repr

/-- The test `isa<BinaryOperator>`. -/
def Instruction.isBinaryOperator (I : Instruction) : Bool :=
  match I.opcode with
  | .add | .xor | .or | .lshr | .otherBinOp => true
  | _ => false

/-- The test `isa<IntrinsicInst>`: debug, lifetime and pseudo-probe markers are
intrinsic calls too. -/
def Instruction.isIntrinsicInst (I : Instruction) : Bool :=
  match I.opcode with
  | .intrinsic | .dbgInfoIntrinsic | .lifetime | .pseudoProbe => true
  | _ => false

/-- The test `Instruction::isTerminator`. -/
def Instruction.isTerminator (I : Instruction) : Bool :=
  match I.opcode with
  | .br | .condBr | .switch | .ret | .unreachable => true
  | _ => false

structure BasicBlock where
  label : Nat
  name : String
  insts : List Instruction
  deriving DecidableEq, Repr

/-- A function; one without blocks is a declaration. `obfuscate` records the
answer of the eligibility oracle `toObfuscate` for this function. -/
structure Function where
  name : String
  blocks : List BasicBlock
  obfuscate : Bool
  presplitCoroutine : Bool
  noReturn : Bool
  deriving DecidableEq, Repr

inductive Linkage where
  | privateLinkage | internalLinkage | externalLinkage
  deriving DecidableEq, Repr

structure GlobalVariable where
  id : Nat
  name : String
  init : Option Value
  linkage : Linkage
  deriving DecidableEq, Repr

/-- A module. `fresh` is the next unused identity for instructions, blocks and
globals; `compilerUsed` is the list `llvm.compiler.used`. -/
structure Module where
  functions : List Function
  globals : List GlobalVariable
  compilerUsed : List Nat
  fresh : Nat
  deriving DecidableEq, Repr

/-! ## Random source -/

/-- Modelled from the spec: the random source `cryptoutils` (its header is not
part of the sources) produces unsigned integers of 8, 16, 32 and 64 bits and
bounded-range integers. It is a stream of raw draws with a read position. -/
structure CryptoUtils where
  stream : Nat → Nat
  pos : Nat

/-- The raw draw at the read position, and the advanced source. -/
def CryptoUtils.draw (c : CryptoUtils) : Nat × CryptoUtils :=
  (c.stream c.pos, { c with pos := c.pos + 1 })

def CryptoUtils.get_uint8_t (c : CryptoUtils) : Nat × CryptoUtils :=
  ((c.draw).1 % 2 ^ 8, (c.draw).2)

def CryptoUtils.get_uint16_t (c : CryptoUtils) : Nat × CryptoUtils :=
  ((c.draw).1 % 2 ^ 16, (c.draw).2)

def CryptoUtils.get_uint32_t (c : CryptoUtils) : Nat × CryptoUtils :=
  ((c.draw).1 % 2 ^ 32, (c.draw).2)

def CryptoUtils.get_uint64_t (c : CryptoUtils) : Nat × CryptoUtils :=
  ((c.draw).1 % 2 ^ 64, (c.draw).2)

/-- The call `get_range(max)`: a value in `0 .. max - 1`. -/
def CryptoUtils.get_range (c : CryptoUtils) (max : Nat) : Nat × CryptoUtils :=
  ((c.draw).1 % max, (c.draw).2)

/-! ## ConstantEncryption: options, key pairs, probability gate -/

/-- The pass object together with its command-line options. Its member
`obfedbos` changes during a run and is carried by the pass state. -/
structure ConstantEncryption where
  flag : Bool
  SubstituteXor : Bool
  ConstToGV : Bool
  ObfProbRate : Nat
  ObfTimes : Int

/-- The method `ConstantEncryption::PairConstantInt`: the pair (key, new). A
null pointer is `none`. -/
def PairConstantInt (rng : CryptoUtils) (C : ConstantInt) :
    (Option ConstantInt × Option ConstantInt) × CryptoUtils :=
  if C.width = 1 ∨ C.width = 8 then
    let K := (rng.get_uint8_t).1
    let CI := ConstantInt.get C.width (K ^^^ C.val)
    ((some (ConstantInt.get C.width K), some CI), (rng.get_uint8_t).2)
  else if C.width = 16 then
    let K := (rng.get_uint16_t).1
    let CI := ConstantInt.get C.width (K ^^^ C.val)
    ((some (ConstantInt.get C.width K), some CI), (rng.get_uint16_t).2)
  else if C.width = 32 then
    let K := (rng.get_uint32_t).1
    let CI := ConstantInt.get C.width (K ^^^ C.val)
    ((some (ConstantInt.get C.width K), some CI), (rng.get_uint32_t).2)
  else if C.width = 64 then
    let K := (rng.get_uint64_t).1
    let CI := ConstantInt.get C.width (K ^^^ C.val)
    ((some (ConstantInt.get C.width K), some CI), (rng.get_uint64_t).2)
  else
    ((none, none), rng)

/-- The method `ConstantEncryption::shouldEncryptConstant`. The random draw is
made only when the structural test lets the instruction through. -/
def shouldEncryptConstant (self : ConstantEncryption) (rng : CryptoUtils)
    (I : Instruction) : Bool × CryptoUtils :=
  if I.isIntrinsicInst || I.opcode == Opcode.getElementPtr || I.opcode == Opcode.phi
      || I.atomic then
    (false, rng)
  else if !(decide ((rng.get_range 100).1 ≤ self.ObfProbRate)) then
    (false, (rng.get_range 100).2)
  else
    (true, (rng.get_range 100).2)

/-! ## Editing the program representation -/

def Function.instructions (F : Function) : List Instruction :=
  (F.blocks.map fun B => B.insts).flatten

def Module.instructions (M : Module) : List Instruction :=
  (M.functions.map Function.instructions).flatten

def Module.getFunction (M : Module) (name : String) : Option Function :=
  M.functions.find? fun F => F.name == name

def Module.findInst (M : Module) (id : Nat) : Option Instruction :=
  M.instructions.find? fun I => I.id == id

def Module.findGlobal (M : Module) (g : Nat) : Option GlobalVariable :=
  M.globals.find? fun G => G.id == g

/-- Applies an edit to the instruction list of every block of the module. -/
def Module.mapBlocks (M : Module) (f : List Instruction → List Instruction) : Module :=
  { M with functions := M.functions.map fun F =>
      { F with blocks := F.blocks.map fun B => { B with insts := f B.insts } } }

/-- Inserts `I` right before the instruction `target` of an instruction list. -/
def insertBeforeL (I : Instruction) (target : Nat) : List Instruction → List Instruction
  | [] => []
  | J :: rest =>
    if J.id = target then I :: J :: rest else J :: insertBeforeL I target rest

/-- Inserts `I` right after the instruction `target` of an instruction list. -/
def insertAfterL (I : Instruction) (target : Nat) : List Instruction → List Instruction
  | [] => []
  | J :: rest =>
    if J.id = target then J :: I :: rest else J :: insertAfterL I target rest

def Module.insertBefore (M : Module) (I : Instruction) (target : Nat) : Module :=
  M.mapBlocks (insertBeforeL I target)

def Module.insertAfter (M : Module) (I : Instruction) (target : Nat) : Module :=
  M.mapBlocks (insertAfterL I target)

/-- The call `I->setOperand(idx, v)` on the instruction `id`. -/
def Module.setOperand (M : Module) (id idx : Nat) (v : Value) : Module :=
  M.mapBlocks fun l => l.map fun J =>
    if J.id = id then { J with operands := J.operands.set idx v } else J

/-- The call `old->replaceUsesWithIf(new, [X](Use &U) { return U.getUser() != X; })`:
every use of `old` whose user is not the instruction `X` is redirected to
`new`. The uses of a value are the operands of instructions and, for a
constant, also the initializers of global variables, whose use is set like
that of an instruction. -/
def Module.replaceUsesWithIf (M : Module) (old new : Value) (X : Nat) : Module :=
  let M1 := M.mapBlocks fun l => l.map fun J =>
    if J.id = X then J
    else { J with operands := J.operands.map fun o => if o = old then new else o }
  { M1 with globals := M1.globals.map fun G =>
      if G.init = some old then { G with init := some new } else G }

def Module.setInitializer (M : Module) (g : Nat) (v : Value) : Module :=
  { M with globals := M.globals.map fun G =>
      if G.id = g then { G with init := some v } else G }

/-- The users of the global `g`, one entry per use, as `GVPtr->users()` lists
them. A use list has its most recent use first; instructions are taken to
have been created in program order, so the users come out in reverse program
order. An operand that is a pointer cast of the global is a use of the cast
expression, not of the global. -/
def Module.users (M : Module) (g : Nat) : List Nat :=
  M.instructions.reverse.flatMap fun I =>
    (I.operands.filter fun o => o == Value.global g).map fun _ => I.id

/-- The call `V->stripPointerCasts()`. -/
def Value.stripPointerCasts : Value → Value
  | .castGlobal g => .global g
  | v => v

/-- The identity of the instruction that follows `id` in an instruction list. -/
def nextAfter (id : Nat) : List Instruction → Option Nat
  | [] => none
  | J :: rest =>
    if J.id = id then rest.head?.map (fun K => K.id) else nextAfter id rest

/-- The first instruction of `instructions(F)`. -/
def Module.firstInst (M : Module) (fname : String) : Option Nat :=
  match M.getFunction fname with
  | none => none
  | some F => F.instructions.head?.map fun K => K.id

/-- Advancing the iterator of `instructions(F)` past the instruction `id`. -/
def Module.nextInst (M : Module) (fname : String) (id : Nat) : Option Nat :=
  match M.getFunction fname with
  | none => none
  | some F => nextAfter id F.instructions

/-! ## ConstantEncryption: the transformation -/

/-- What the pass threads through its run: the module, the random source, the
text written to `errs()`, and the member `obfedbos`. -/
structure PassState where
  M : Module
  rng : CryptoUtils
  errs : List String
  obfedbos : List Nat

/-- The collaborator `SubstituteImpl::substituteXor`, whose code is not part of
the sources: it rewrites the XOR instruction it is given. -/
structure SubstituteImpl where
  substituteXor : PassState → Nat → PassState

/-- A fresh XOR instruction `BinaryOperator::Create(Instruction::Xor, a, b)`. -/
def createXor (id : Nat) (a b : Value) (width : Nat) : Instruction :=
  { id := id, opcode := Opcode.xor, operands := [a, b], ty := some width, atomic := false }

/-- The method `ConstantEncryption::HandleConstantIntOperand`. -/
def HandleConstantIntOperand (self : ConstantEncryption) (ext : SubstituteImpl)
    (st : PassState) (I : Nat) (opindex : Nat) : PassState :=
  match (st.M.findInst I).bind fun J => J.operands.get? opindex with
  | some (Value.constInt C) =>
    let keyandnew := PairConstantInt st.rng C
    match keyandnew.1.1, keyandnew.1.2 with
    | some Key, some New =>
      let NewOperand := createXor st.M.fresh (Value.constInt New) (Value.constInt Key) New.width
      let M1 := { st.M with fresh := st.M.fresh + 1 }
      let M2 := M1.insertBefore NewOperand I
      let M3 := M2.setOperand I opindex (Value.inst NewOperand.id)
      let st1 := { st with M := M3, rng := keyandnew.2 }
      if self.SubstituteXor then ext.substituteXor st1 NewOperand.id else st1
    | _, _ => { st with rng := keyandnew.2 }
  | _ => st

/-- The body of the loop over `GVPtr->users()` in
`HandleConstantIntInitializerGV`, for the user `U`. -/
def handleUser (self : ConstantEncryption) (ext : SubstituteImpl) (XORKey : ConstantInt)
    (st : PassState) (U : Nat) : PassState :=
  match st.M.findInst U with
  | none => st
  | some UI =>
    if UI.opcode = Opcode.load then
      let XORInst := createXor st.M.fresh (Value.inst U) (Value.constInt XORKey) XORKey.width
      let M1 := { st.M with fresh := st.M.fresh + 1 }
      let M2 := M1.insertAfter XORInst U
      let M3 := M2.replaceUsesWithIf (Value.inst U) (Value.inst XORInst.id) XORInst.id
      let st1 := { st with M := M3 }
      if self.SubstituteXor then ext.substituteXor st1 XORInst.id else st1
    else if UI.opcode = Opcode.store then
      match UI.operands with
      | [] => st
      | op0 :: _ =>
        let XORInst := createXor st.M.fresh op0 (Value.constInt XORKey) XORKey.width
        let M1 := { st.M with fresh := st.M.fresh + 1 }
        let M2 := M1.insertBefore XORInst U
        let M3 := M2.replaceUsesWithIf op0 (Value.inst XORInst.id) XORInst.id
        let st1 := { st with M := M3 }
        if self.SubstituteXor then ext.substituteXor st1 XORInst.id else st1
    else st

/-- The method `ConstantEncryption::HandleConstantIntInitializerGV`. -/
def HandleConstantIntInitializerGV (self : ConstantEncryption) (ext : SubstituteImpl)
    (st : PassState) (GVPtr : Nat) : PassState :=
  match (st.M.findGlobal GVPtr).bind fun G => G.init with
  | some (Value.constInt CI) =>
    let keyandnew := PairConstantInt st.rng CI
    match keyandnew.1.1, keyandnew.1.2 with
    | some XORKey, some newGVInit =>
      let M1 := st.M.setInitializer GVPtr (Value.constInt newGVInit)
      let st1 := { st with M := M1, rng := keyandnew.2 }
      (st.M.users GVPtr).foldl (handleUser self ext XORKey) st1
    | _, _ => { st with rng := keyandnew.2 }
  | _ => st

/-- The test made on a global operand in `runOnModule`: it has an initializer,
private or internal linkage, and the initializer is an integer literal. -/
def encryptableGV (M : Module) (g : Nat) : Bool :=
  match M.findGlobal g with
  | none => false
  | some G =>
    match G.init with
    | some (Value.constInt _) =>
      G.linkage == Linkage.privateLinkage || G.linkage == Linkage.internalLinkage
    | _ => false

/-- The loop `for (unsigned i = 0; i < I.getNumOperands(); i++)` of the first
phase of a pass, from operand `i` on, with `n` operands left. -/
def operandLoop (self : ConstantEncryption) (ext : SubstituteImpl) (I : Nat) :
    Nat → Nat → PassState → PassState
  | 0, _, st => st
  | n + 1, i, st =>
    match st.M.findInst I with
    | none => st
    | some J =>
      if J.opcode = Opcode.switch ∧ i ≠ 0 then st
      else
        match J.operands.get? i with
        | none => st
        | some Op =>
          let st1 :=
            match Op with
            | Value.constInt _ => HandleConstantIntOperand self ext st I i
            | _ => st
          let st2 :=
            match Op.stripPointerCasts with
            | Value.global G =>
              if encryptableGV st1.M G then HandleConstantIntInitializerGV self ext st1 G
              else st1
            | _ => st1
          operandLoop self ext I n (i + 1) st2

/-- The body of the loop over `instructions(F)` in the first phase. -/
def visitInst (self : ConstantEncryption) (ext : SubstituteImpl) (st : PassState)
    (I : Nat) : PassState :=
  match st.M.findInst I with
  | none => st
  | some J =>
    let gate := shouldEncryptConstant self st.rng J
    if gate.1 then operandLoop self ext I J.operands.length 0 { st with rng := gate.2 }
    else { st with rng := gate.2 }

/-- The loop `for (Instruction &I : instructions(F))` of the first phase; `cur`
is the instruction the iterator stands on. Instructions inserted behind the
iterator are not visited, instructions inserted ahead of it are. -/
def instLoop (self : ConstantEncryption) (ext : SubstituteImpl) (fname : String) :
    Nat → Option Nat → PassState → Option PassState
  | _, none, st => some st
  | 0, some _, _ => none
  | fuel + 1, some I, st =>
    let st1 := visitInst self ext st I
    instLoop self ext fname fuel (st1.M.nextInst fname I) st1

/-- A new private global with the given initializer, as `new GlobalVariable`
creates it. -/
def Module.addGlobal (M : Module) (name : String) (c : ConstantInt) : Module :=
  let GV : GlobalVariable :=
    { id := M.fresh, name := name, init := some (Value.constInt c),
      linkage := Linkage.privateLinkage }
  { M with globals := M.globals ++ [GV], fresh := M.fresh + 1 }

def Module.appendToCompilerUsed (M : Module) (g : Nat) : Module :=
  { M with compilerUsed := M.compilerUsed ++ [g] }

def createLoad (id : Nat) (g : Nat) (width : Nat) : Instruction :=
  { id := id, opcode := Opcode.load, operands := [Value.global g], ty := some width,
    atomic := false }

def createStore (id : Nat) (v : Value) (g : Nat) : Instruction :=
  { id := id, opcode := Opcode.store, operands := [v, Value.global g], ty := none,
    atomic := false }

/-- The operand loop of the literal-to-global phase for the instruction `I`. -/
def toGVOperandLoop (I : Nat) : Nat → Nat → Module → Module
  | 0, _, M => M
  | n + 1, i, M =>
    match M.findInst I with
    | none => M
    | some J =>
      match J.operands.get? i with
      | some (Value.constInt CI) =>
        if J.opcode = Opcode.switch ∧ i ≠ 0 then M
        else
          let GV := M.fresh
          let M1 := M.addGlobal "ConstantEncryptionConstToGlobal"
            (ConstantInt.get CI.width CI.val)
          let M2 := M1.appendToCompilerUsed GV
          let LI := createLoad M2.fresh GV CI.width
          let M3 := { M2 with fresh := M2.fresh + 1 }
          let M4 := M3.insertBefore LI I
          let M5 := M4.setOperand I i (Value.inst LI.id)
          toGVOperandLoop I n (i + 1) M5
      | _ => toGVOperandLoop I n (i + 1) M

/-- The first loop of the literal-to-global phase; it returns the vector `ins`
as well. -/
def toGVLoop (self : ConstantEncryption) (fname : String) :
    Nat → Option Nat → List Nat → PassState → Option (List Nat × PassState)
  | _, none, ins, st => some (ins, st)
  | 0, some _, _, _ => none
  | fuel + 1, some I, ins, st =>
    match st.M.findInst I with
    | none => some (ins, st)
    | some J =>
      let gate := shouldEncryptConstant self st.rng J
      if gate.1 then
        let M1 := toGVOperandLoop I J.operands.length 0 st.M
        toGVLoop self fname fuel (M1.nextInst fname I) (ins ++ [I])
          { st with M := M1, rng := gate.2 }
      else
        toGVLoop self fname fuel (st.M.nextInst fname I) ins { st with rng := gate.2 }

/-- The body of the loop `for (Instruction *I : ins)`: the result of a binary
operator is stored to a fresh global and reloaded. -/
def storeBO (st : PassState) (I : Nat) : PassState :=
  match st.M.findInst I with
  | none => st
  | some BO =>
    if BO.isBinaryOperator then
      match BO.ty with
      | none => st
      | some width =>
        if I ∈ st.obfedbos then st
        else
          let drawn : Option (Nat × CryptoUtils) :=
            if width = 8 then some st.rng.get_uint8_t
            else if width = 16 then some st.rng.get_uint16_t
            else if width = 32 then some st.rng.get_uint32_t
            else if width = 64 then some st.rng.get_uint64_t
            else if width ≠ 0 then none
            else some (0, st.rng)
          match drawn with
          | none => st
          | some (dummy, rng1) =>
            let GV := st.M.fresh
            let M1 := st.M.addGlobal "ConstantEncryptionBOStore" (ConstantInt.get width dummy)
            let SI := createStore M1.fresh (Value.inst I) GV
            let M2 := { M1 with fresh := M1.fresh + 1 }
            let M3 := M2.insertAfter SI I
            let LI := createLoad M3.fresh GV width
            let M4 := { M3 with fresh := M3.fresh + 1 }
            let M5 := M4.insertAfter LI SI.id
            let M6 := M5.replaceUsesWithIf (Value.inst I) (Value.inst LI.id) SI.id
            { st with M := M6, rng := rng1, obfedbos := st.obfedbos ++ [I] }
    else st

/-- The loop `while (times)` over one function: each round is the first phase
and, when `ConstToGV` is set, the literal-to-global phase. -/
def timesLoop (self : ConstantEncryption) (ext : SubstituteImpl) (fname : String)
    (fuel : Nat) : Nat → Int → PassState → Option PassState
  | 0, times, st => if times = 0 then some st else none
  | rounds + 1, times, st =>
    if times = 0 then some st
    else
      match instLoop self ext fname fuel (st.M.firstInst fname) st with
      | none => none
      | some st1 =>
        if self.ConstToGV then
          match toGVLoop self fname fuel (st1.M.firstInst fname) [] st1 with
          | none => none
          | some (ins, st2) =>
            timesLoop self ext fname fuel rounds (times - 1) (ins.foldl storeBO st2)
        else timesLoop self ext fname fuel rounds (times - 1) st1

/-- The loop `for (Function &F : M)` of `runOnModule`, over the names of the
functions still to visit. -/
def functionLoop (self : ConstantEncryption) (ext : SubstituteImpl) (fuel : Nat) :
    List String → PassState → Option PassState
  | [], st => some st
  | fname :: rest, st =>
    match st.M.getFunction fname with
    | none => functionLoop self ext fuel rest st
    | some F =>
      if F.obfuscate && !F.presplitCoroutine then
        let st1 := { st with
          errs := st.errs ++ ["Running ConstantEncryption On " ++ F.name ++ "\n"] }
        match timesLoop self ext fname fuel fuel self.ObfTimes st1 with
        | none => none
        | some st2 => functionLoop self ext fuel rest st2
      else functionLoop self ext fuel rest st

/-- The method `ConstantEncryption::runOnModule`. The result is `none` when the
loops have not come to an end within `fuel` steps. -/
def runOnModule (self : ConstantEncryption) (ext : SubstituteImpl) (fuel : Nat)
    (st : PassState) : Option (Bool × PassState) :=
  if self.ObfProbRate > 100 then
    some (false, { st with errs := st.errs ++
      ["ConstantEncryption application instruction percentage " ++
        "-constenc_prob=x must be 0 < x <= 100"] })
  else
    match functionLoop self ext fuel (st.M.functions.map fun F => F.name) st with
    | none => none
    | some st1 => some (true, st1)

/-! ## AntiHook: instruction signatures -/

def AARCH64_SIGNATURE_B : Nat := 0b000101

def AARCH64_SIGNATURE_BR : Nat := 0b1101011000011111000000

def AARCH64_SIGNATURE_BRK : Nat := 0b11010100001

/-! ## AntiHook: instrumentation -/

/-- The target description, as far as the pass asks it. -/
structure Triple where
  isAArch64 : Bool
  isOSDarwin : Bool

/-- The pass object, with the members the instrumentation reads. -/
structure AntiHook where
  flag : Bool
  triple : Triple

def mkInst (id : Nat) (opcode : Opcode) (operands : List Value) (ty : Option Nat) :
    Instruction :=
  { id := id, opcode := opcode, operands := operands, ty := ty, atomic := false }

/-- The markers `getFirstNonPHIOrDbgOrLifetime` steps over. -/
def Instruction.isPHIOrDbgOrLifetime (I : Instruction) : Bool :=
  match I.opcode with
  | .phi | .dbgInfoIntrinsic | .pseudoProbe | .lifetime => true
  | _ => false

/-- The call `BB->getFirstNonPHIOrDbgOrLifetime()`: the position in the block of
its first instruction that is not such a marker; a null result is `none`. -/
def BasicBlock.getFirstNonPHIOrDbgOrLifetime (A : BasicBlock) : Option Nat :=
  if (A.insts.dropWhile fun I => I.isPHIOrDbgOrLifetime).isEmpty then none
  else some (A.insts.takeWhile fun I => I.isPHIOrDbgOrLifetime).length

/-- The call `A->splitBasicBlock(I)` for the instruction at position `I`: the
instructions from `I` to the end of the block move to a new block, and the old
block is closed by a branch to the new one. The pair is (old block, new
block). -/
def BasicBlock.splitBasicBlock (A : BasicBlock) (I : Nat) (newLabel brId : Nat) :
    BasicBlock × BasicBlock :=
  ({ A with insts := A.insts.take I ++ [mkInst brId Opcode.br [Value.block newLabel] none] },
   { label := newLabel, name := "", insts := A.insts.drop I })

/-- The call `A->getTerminator()->eraseFromParent()`; `none` when the block has
no terminator. -/
def BasicBlock.eraseTerminator (A : BasicBlock) : Option BasicBlock :=
  match A.insts.getLast? with
  | some T => if T.isTerminator then some { A with insts := A.insts.dropLast } else none
  | none => none

/-- The call `M->getOrInsertFunction(name, ...)` followed by
`addFnAttr(Attribute::NoReturn)` on the result. -/
def Module.getOrInsertNoReturn (M : Module) (name : String) : Module :=
  match M.getFunction name with
  | some _ =>
    { M with functions := M.functions.map fun F =>
        if F.name == name then { F with noReturn := true } else F }
  | none =>
    { M with functions := M.functions ++
        [{ name := name, blocks := [], obfuscate := false, presplitCoroutine := false,
           noReturn := true }] }

/-- The method `AntiHook::CreateCallbackAndJumpBack`: the instructions the
builder appends to the handler block, for the continuation block `C`. -/
def CreateCallbackAndJumpBack (self : AntiHook) (M : Module) (rng : CryptoUtils) (C : Nat) :
    List Instruction × Module × CryptoUtils :=
  match M.getFunction "AHCallBack" with
  | some _ =>
    ([mkInst M.fresh Opcode.call [Value.func "AHCallBack"] none,
      mkInst (M.fresh + 1) Opcode.br [Value.block C] none],
     { M with fresh := M.fresh + 2 }, rng)
  | none =>
    if self.triple.isOSDarwin && self.triple.isAArch64 then
      let exitsvcasm := "mov w16, #1\n" ++ ("svc #" ++ toString (rng.get_range 65536).1 ++ "\n")
      ([mkInst M.fresh Opcode.call [Value.inlineAsm exitsvcasm] none,
        mkInst (M.fresh + 1) Opcode.br [Value.block C] none],
       { M with fresh := M.fresh + 2 }, (rng.get_range 65536).2)
    else
      let M1 := M.getOrInsertNoReturn "abort"
      ([mkInst M1.fresh Opcode.call [Value.func "abort"] none,
        mkInst (M1.fresh + 1) Opcode.br [Value.block C] none],
       { M1 with fresh := M1.fresh + 2 }, rng)

/-- The instructions built into the block `Detect`, with identities from `n`
on. Each builder call is one instruction. -/
def detectInsts (n : Nat) (F : String) (B Detect2 : Nat) : List Instruction :=
  [ mkInst n Opcode.bitCast [Value.func F] none,
    mkInst (n + 1) Opcode.load [Value.inst n] (some 32),
    mkInst (n + 2) Opcode.lshr
      [Value.inst (n + 1), Value.constInt (ConstantInt.get 32 26)] (some 32),
    mkInst (n + 3) Opcode.icmpEq
      [Value.inst (n + 2), Value.constInt (ConstantInt.get 32 AARCH64_SIGNATURE_B)] (some 1),
    mkInst (n + 4) Opcode.lshr
      [Value.inst (n + 1), Value.constInt (ConstantInt.get 32 21)] (some 32),
    mkInst (n + 5) Opcode.icmpEq
      [Value.inst (n + 4), Value.constInt (ConstantInt.get 32 AARCH64_SIGNATURE_BRK)] (some 1),
    mkInst (n + 6) Opcode.or [Value.inst (n + 3), Value.inst (n + 5)] (some 1),
    mkInst (n + 7) Opcode.condBr [Value.inst (n + 6), Value.block B, Value.block Detect2] none ]

/-- The instructions built into the block `Detect2`, with identities from `n`
on. -/
def detect2Insts (n : Nat) (F : String) (B C : Nat) : List Instruction :=
  [ mkInst n Opcode.ptrToInt [Value.func F] (some 64),
    mkInst (n + 1) Opcode.add
      [Value.inst n, Value.constInt (ConstantInt.get 64 4)] (some 64),
    mkInst (n + 2) Opcode.intToPtr [Value.inst (n + 1)] none,
    mkInst (n + 3) Opcode.load [Value.inst (n + 2)] (some 32),
    mkInst (n + 4) Opcode.lshr
      [Value.inst (n + 3), Value.constInt (ConstantInt.get 32 10)] (some 32),
    mkInst (n + 5) Opcode.icmpEq
      [Value.inst (n + 4), Value.constInt (ConstantInt.get 32 AARCH64_SIGNATURE_BR)] (some 1),
    mkInst (n + 6) Opcode.add
      [Value.inst n, Value.constInt (ConstantInt.get 64 8)] (some 64),
    mkInst (n + 7) Opcode.intToPtr [Value.inst (n + 6)] none,
    mkInst (n + 8) Opcode.load [Value.inst (n + 7)] (some 32),
    mkInst (n + 9) Opcode.lshr
      [Value.inst (n + 8), Value.constInt (ConstantInt.get 32 10)] (some 32),
    mkInst (n + 10) Opcode.icmpEq
      [Value.inst (n + 9), Value.constInt (ConstantInt.get 32 AARCH64_SIGNATURE_BR)] (some 1),
    mkInst (n + 11) Opcode.or [Value.inst (n + 5), Value.inst (n + 10)] (some 1),
    mkInst (n + 12) Opcode.condBr [Value.inst (n + 11), Value.block B, Value.block C] none ]

/-- The method `AntiHook::HandleInlineHookAArch64`. The function is passed and
returned by value; the module supplies fresh identities and the declared
functions. The result is `none` where the code would dereference a null
pointer (a function without entry block, an entry block without a real
instruction). The new blocks take the labels `fresh` (C), `fresh + 1` (B),
`fresh + 2` (Detect) and `fresh + 3` (Detect2). -/
def HandleInlineHookAArch64 (self : AntiHook) (M : Module) (rng : CryptoUtils)
    (F : Function) : Option (Function × Module × CryptoUtils) :=
  match F.blocks with
  | [] => none
  | A :: rest =>
    match A.getFirstNonPHIOrDbgOrLifetime with
    | none => none
    | some I =>
      let C := M.fresh
      let B := M.fresh + 1
      let Detect := M.fresh + 2
      let Detect2 := M.fresh + 3
      let halves := A.splitBasicBlock I C (M.fresh + 4)
      match halves.1.eraseTerminator with
      | none => none
      | some A1 =>
        let A2 := { A1 with
          insts := A1.insts ++ [mkInst (M.fresh + 5) Opcode.br [Value.block Detect] none] }
        let DetectBB : BasicBlock :=
          { label := Detect, name := "", insts := detectInsts (M.fresh + 6) F.name B Detect2 }
        let Detect2BB : BasicBlock :=
          { label := Detect2, name := "", insts := detect2Insts (M.fresh + 14) F.name B C }
        let cb := CreateCallbackAndJumpBack self { M with fresh := M.fresh + 27 } rng C
        let BBB : BasicBlock := { label := B, name := "HookDetectedHandler", insts := cb.1 }
        some ({ F with blocks := A2 :: halves.2 :: rest ++ [BBB, DetectBB, Detect2BB] },
              cb.2.1, cb.2.2)

/-- The call `IRB.CreateGlobalStringPtr(s)`: a private global holding the
string; the result is an all-zero index expression on it. -/
def Module.createGlobalStringPtr (M : Module) (s : String) : Value × Module :=
  let GV : GlobalVariable :=
    { id := M.fresh, name := "", init := some (Value.cstring s),
      linkage := Linkage.privateLinkage }
  (Value.castGlobal M.fresh, { M with globals := M.globals ++ [GV], fresh := M.fresh + 1 })

/-- The method `AntiHook::HandleObjcRuntimeHook`. The result is `none` where
the code would dereference a null pointer, which includes a runtime entry
point that the module does not declare. The new blocks take the labels
`fresh` (C) and `fresh + 1` (B). -/
def HandleObjcRuntimeHook (self : AntiHook) (M : Module) (rng : CryptoUtils)
    (ObjcMethodImp : Function) (classname selname : String) (classmethod : Bool) :
    Option (Function × Module × CryptoUtils) :=
  match ObjcMethodImp.blocks with
  | [] => none
  | A :: rest =>
    match A.getFirstNonPHIOrDbgOrLifetime with
    | none => none
    | some I =>
      let C := M.fresh
      let B := M.fresh + 1
      let halves := A.splitBasicBlock I C (M.fresh + 2)
      match halves.1.eraseTerminator with
      | none => none
      | some A1 =>
        let lookup := if classmethod then "class_getClassMethod" else "class_getInstanceMethod"
        if (M.getFunction "objc_getClass").isNone || (M.getFunction "sel_registerName").isNone
            || (M.getFunction lookup).isNone
            || (M.getFunction "method_getImplementation").isNone then none
        else
          let s1 := { M with fresh := M.fresh + 3 }.createGlobalStringPtr classname
          let s2 := s1.2.createGlobalStringPtr selname
          let n := s2.2.fresh
          let built : List Instruction :=
            [ mkInst n Opcode.call [Value.func "objc_getClass", s1.1] none,
              mkInst (n + 1) Opcode.call [Value.func "sel_registerName", s2.1] none,
              mkInst (n + 2) Opcode.call
                [Value.func lookup, Value.inst n, Value.inst (n + 1)] none,
              mkInst (n + 3) Opcode.call
                [Value.func "method_getImplementation", Value.inst (n + 2)] none,
              mkInst (n + 4) Opcode.bitCast [Value.inst (n + 3)] none,
              mkInst (n + 5) Opcode.icmpEq
                [Value.inst (n + 4), Value.func ObjcMethodImp.name] (some 1),
              mkInst (n + 6) Opcode.condBr
                [Value.inst (n + 5), Value.block C, Value.block B] none ]
          let A2 := { A1 with insts := A1.insts ++ built }
          let cb := CreateCallbackAndJumpBack self { s2.2 with fresh := n + 7 } rng C
          let BBB : BasicBlock := { label := B, name := "HookDetectedHandler", insts := cb.1 }
          some ({ ObjcMethodImp with blocks := A2 :: BBB :: halves.2 :: rest }, cb.2.1, cb.2.2)

/-! ## Execution of the program representation -/

/-- The run-time surroundings of a function: where functions and globals are
placed, and the actual arguments. -/
structure Machine where
  funcAddr : String → Nat
  globalAddr : Nat → Nat
  args : Nat → Nat

/-- The state of an execution: the results of the instructions executed so
far, and the memory, a value per address. -/
structure Frame where
  regs : Nat → Nat
  mem : Nat → Nat

def evalValue (mc : Machine) (fr : Frame) : Value → Nat
  | .constInt c => c.val
  | .inst id => fr.regs id
  | .global g => mc.globalAddr g
  | .castGlobal g => mc.globalAddr g
  | .func name => mc.funcAddr name
  | .arg i => mc.args i
  | _ => 0

def Frame.setReg (fr : Frame) (id v : Nat) : Frame :=
  { fr with regs := fun j => if j = id then v else fr.regs j }

def Frame.setMem (fr : Frame) (addr v : Nat) : Frame :=
  { fr with mem := fun a => if a = addr then v else fr.mem a }

/-- Executes one instruction that is not a terminator. Results of integer type
are reduced to their width, addresses to 64 bits; calls and markers leave the
frame as it is. -/
def execInst (mc : Machine) (fr : Frame) (I : Instruction) : Frame :=
  let v := fun (i : Nat) => evalValue mc fr (I.operands.getD i (Value.other 0))
  let w := I.ty.getD 64
  match I.opcode with
  | .add => fr.setReg I.id ((v 0 + v 1) % 2 ^ w)
  | .xor => fr.setReg I.id ((v 0 ^^^ v 1) % 2 ^ w)
  | .or => fr.setReg I.id ((v 0 ||| v 1) % 2 ^ w)
  | .lshr => fr.setReg I.id ((v 0 >>> v 1) % 2 ^ w)
  | .icmpEq => fr.setReg I.id (if v 0 = v 1 then 1 else 0)
  | .load => fr.setReg I.id (fr.mem (v 0) % 2 ^ w)
  | .store => fr.setMem (v 1) (v 0)
  | .bitCast => fr.setReg I.id (v 0)
  | .ptrToInt => fr.setReg I.id (v 0 % 2 ^ w)
  | .intToPtr => fr.setReg I.id (v 0 % 2 ^ w)
  | _ => fr

/-- The block a terminator passes control to. -/
def successor (mc : Machine) (fr : Frame) (I : Instruction) : Option Nat :=
  match I.opcode, I.operands with
  | .br, [Value.block b] => some b
  | .condBr, [c, Value.block t, Value.block f] =>
    some (if evalValue mc fr c % 2 = 1 then t else f)
  | _, _ => none

/-- Executes the instructions of a block up to its terminator. -/
def execBlock (mc : Machine) : Frame → List Instruction → Frame × Option Nat
  | fr, [] => (fr, none)
  | fr, I :: rest =>
    if I.isTerminator then (fr, successor mc fr I)
    else execBlock mc (execInst mc fr I) rest

def Function.findBlock (F : Function) (label : Nat) : Option BasicBlock :=
  F.blocks.find? fun B => B.label == label

/-- The labels of the blocks control passes through from the block `label` on,
up to and including the first block for which `stop` holds. -/
def runPath (mc : Machine) (F : Function) (stop : Nat → Bool) :
    Nat → Nat → Frame → List Nat
  | 0, _, _ => []
  | fuel + 1, label, fr =>
    if stop label then [label]
    else
      match F.findBlock label with
      | none => [label]
      | some B =>
        match (execBlock mc fr B.insts).2 with
        | none => [label]
        | some next => label :: runPath mc F stop fuel next (execBlock mc fr B.insts).1

/-- Executes a straight-line instruction list from a frame. -/
def execInsts (mc : Machine) (fr : Frame) (l : List Instruction) : Frame :=
  l.foldl (execInst mc) fr

/-! ## Well-formedness of blocks and functions -/

/-- A block ends in exactly one terminator -/
def BasicBlock.endsInOneTerminator (b : BasicBlock) : Bool :=
  (match b.insts.getLast? with
    | some T => T.isTerminator
    | none => false) &&
  b.insts.dropLast.all fun I => !I.isTerminator

/-- The runtime entry points `HandleObjcRuntimeHook` calls are declared. -/
def Module.declaresObjcRuntime (M : Module) : Bool :=
  (M.getFunction "objc_getClass").isSome && (M.getFunction "sel_registerName").isSome &&
  (M.getFunction "class_getClassMethod").isSome &&
  (M.getFunction "class_getInstanceMethod").isSome &&
  (M.getFunction "method_getImplementation").isSome

/-- Every block of the function ends in exactly one terminator. -/
def Function.wellTerminated (F : Function) : Bool :=
  F.blocks.all fun b => b.endsInOneTerminator

/-- The label of the entry block. -/
def Function.entryLabel (F : Function) : Option Nat :=
  F.blocks.head?.map fun b => b.label

/-- The function has a block `B` named `HookDetectedHandler` whose last
instruction is an unconditional branch to the block `C`. -/
def Function.handlerBranchesTo (F : Function) (B C : Nat) : Bool :=
  F.blocks.any fun b =>
    b.label == B && b.name == "HookDetectedHandler" &&
    match b.insts.getLast? with
    | some T => T.opcode == Opcode.br && T.operands == [Value.block C]
    | none => false

/-! ## Scenario inputs -/

/-- The default options with probability rate 100 and one pass. -/
def defaultPass : ConstantEncryption :=
  { flag := true, SubstituteXor := false, ConstToGV := false,
    ObfProbRate := 100, ObfTimes := 1 }

/-- A substitution collaborator that leaves the XOR as it is. -/
def keepXor : SubstituteImpl :=
  { substituteXor := fun st _ => st }

/-- A random source whose every raw draw is `k`. -/
def constantSource (k : Nat) : CryptoUtils :=
  { stream := fun _ => k, pos := 0 }

/-- A function with one addition of the literals 5 and 10 of width `w`,
followed by the return of the sum. -/
def additionFunction (w : Nat) : Function :=
  let entry : BasicBlock :=
    { label := 0, name := "entry",
      insts := [mkInst 1 Opcode.add [Value.constInt ⟨w, 5⟩, Value.constInt ⟨w, 10⟩] (some w),
                mkInst 2 Opcode.ret [Value.inst 1] none] }
  { name := "f", blocks := [entry], obfuscate := true, presplitCoroutine := false,
    noReturn := false }

def additionModule (w : Nat) : Module :=
  { functions := [additionFunction w], globals := [], compilerUsed := [], fresh := 3 }

/-- The instructions of `additionFunction` after the pass, for the draws `K1`
and `K2`: each operand of the addition is the XOR of the masked literal (first
operand) and the key (second operand). -/
def additionEncrypted (w K1 K2 : Nat) : List Instruction :=
  [ createXor 3 (Value.constInt (ConstantInt.get w (K1 ^^^ 5)))
      (Value.constInt (ConstantInt.get w K1)) w,
    createXor 4 (Value.constInt (ConstantInt.get w (K2 ^^^ 10)))
      (Value.constInt (ConstantInt.get w K2)) w,
    mkInst 1 Opcode.add [Value.inst 3, Value.inst 4] (some w),
    mkInst 2 Opcode.ret [Value.inst 1] none ]

/-- The function `additionFunction` after the pass, for the draws `K1` and
`K2`. -/
def additionResult (w K1 K2 : Nat) : Function :=
  let entry : BasicBlock :=
    { label := 0, name := "entry", insts := additionEncrypted w K1 K2 }
  { name := "f", blocks := [entry], obfuscate := true, presplitCoroutine := false,
    noReturn := false }

/-- A module with an internal 32-bit global `G` (identity 100) initialized to
42, and a function that loads `G`, stores the loaded value back to `G` and
returns it. -/
def loadStoreRetModule : Module :=
  let entry : BasicBlock :=
    { label := 0, name := "entry",
      insts := [mkInst 1 Opcode.load [Value.global 100] (some 32),
                mkInst 2 Opcode.store [Value.inst 1, Value.global 100] none,
                mkInst 3 Opcode.ret [Value.inst 1] none] }
  let g : Function :=
    { name := "g", blocks := [entry], obfuscate := true, presplitCoroutine := false,
      noReturn := false }
  let G : GlobalVariable :=
    { id := 100, name := "G", init := some (Value.constInt ⟨32, 42⟩),
      linkage := Linkage.internalLinkage }
  { functions := [g], globals := [G], compilerUsed := [], fresh := 200 }

/-- A module with a private one-bit global (identity 100) initialized to 1 and
without users. -/
def boolGlobalModule : Module :=
  let G : GlobalVariable :=
    { id := 100, name := "G", init := some (Value.constInt ⟨1, 1⟩),
      linkage := Linkage.privateLinkage }
  { functions := [], globals := [G], compilerUsed := [], fresh := 200 }

/-- An entry block that starts with a debug marker. -/
def sampleEntry : BasicBlock :=
  { label := 0, name := "entry",
    insts := [mkInst 1 Opcode.dbgInfoIntrinsic [] none,
              mkInst 2 Opcode.add [Value.arg 0, Value.arg 1] (some 32),
              mkInst 3 Opcode.br [Value.block 1] none] }

def sampleExit : BasicBlock :=
  { label := 1, name := "exit", insts := [mkInst 4 Opcode.ret [Value.inst 2] none] }

def sampleFunction : Function :=
  { name := "f", blocks := [sampleEntry, sampleExit], obfuscate := true,
    presplitCoroutine := false, noReturn := false }

def declaration (name : String) : Function :=
  { name := name, blocks := [], obfuscate := false, presplitCoroutine := false,
    noReturn := false }

/-- A module that holds `sampleFunction` and declares the Objective-C runtime
entry points. -/
def sampleModule : Module :=
  { functions := [sampleFunction, declaration "objc_getClass",
      declaration "sel_registerName", declaration "class_getClassMethod",
      declaration "class_getInstanceMethod", declaration "method_getImplementation"],
    globals := [], compilerUsed := [], fresh := 100 }

def sampleAntiHook : AntiHook :=
  { flag := true, triple := { isAArch64 := true, isOSDarwin := true } }

/-- Every function is placed at address 4096. -/
def sampleMachine : Machine :=
  { funcAddr := fun _ => 4096, globalAddr := fun _ => 0, args := fun _ => 0 }

/-- A memory whose word at address 4096 is `brk #0` (0xD4200000) and whose
other words are zero. -/
def trapFrame : Frame :=
  { regs := fun _ => 0, mem := fun a => if a = 4096 then 0xD4200000 else 0 }

/-- A random source whose raw draws are the elements of `l`, then zeros. -/
def listSource (l : List Nat) : CryptoUtils :=
  { stream := fun i => l.getD i 0, pos := 0 }

/-- A module with a 24-bit global (identity 100) initialized to 5, and a
function that loads it, adds the 24-bit literal 5 and stores the sum back. -/
def oddWidthModule : Module :=
  let entry : BasicBlock :=
    { label := 0, name := "entry",
      insts := [mkInst 1 Opcode.load [Value.global 100] (some 24),
                mkInst 2 Opcode.add [Value.inst 1, Value.constInt ⟨24, 5⟩] (some 24),
                mkInst 3 Opcode.store [Value.inst 2, Value.global 100] none,
                mkInst 4 Opcode.ret [] none] }
  let g : Function :=
    { name := "g", blocks := [entry], obfuscate := true, presplitCoroutine := false,
      noReturn := false }
  let G : GlobalVariable :=
    { id := 100, name := "G", init := some (Value.constInt ⟨24, 5⟩),
      linkage := Linkage.internalLinkage }
  { functions := [g], globals := [G], compilerUsed := [], fresh := 200 }

/-- A module with an internal 32-bit global `G` (identity 100) initialized to
42, and a function that computes its argument plus one, stores the sum to `G`
and returns the sum. -/
def incStoreRetModule : Module :=
  let entry : BasicBlock :=
    { label := 0, name := "entry",
      insts := [mkInst 1 Opcode.add [Value.arg 0, Value.constInt ⟨32, 1⟩] (some 32),
                mkInst 2 Opcode.store [Value.inst 1, Value.global 100] none,
                mkInst 3 Opcode.ret [Value.inst 1] none] }
  let g : Function :=
    { name := "g", blocks := [entry], obfuscate := true, presplitCoroutine := false,
      noReturn := false }
  let G : GlobalVariable :=
    { id := 100, name := "G", init := some (Value.constInt ⟨32, 42⟩),
      linkage := Linkage.internalLinkage }
  { functions := [g], globals := [G], compilerUsed := [], fresh := 200 }

/-- A module with an internal 8-bit global `G` (identity 100) initialized to 7,
and a function that loads `G`, stores the loaded value back to `G` and returns
the loaded value plus one. -/
def copyBackModule : Module :=
  let entry : BasicBlock :=
    { label := 0, name := "entry",
      insts := [mkInst 1 Opcode.load [Value.global 100] (some 8),
                mkInst 2 Opcode.store [Value.inst 1, Value.global 100] none,
                mkInst 3 Opcode.add [Value.inst 1, Value.constInt ⟨8, 1⟩] (some 8),
                mkInst 4 Opcode.ret [Value.inst 3] none] }
  let g : Function :=
    { name := "g", blocks := [entry], obfuscate := true, presplitCoroutine := false,
      noReturn := false }
  let G : GlobalVariable :=
    { id := 100, name := "G", init := some (Value.constInt ⟨8, 7⟩),
      linkage := Linkage.internalLinkage }
  { functions := [g], globals := [G], compilerUsed := [], fresh := 200 }

/-- The first real instruction of a block: the first one that is not a PHI,
debug, pseudo-probe or lifetime marker. -/
def BasicBlock.firstReal (A : BasicBlock) : Option Instruction :=
  A.insts.find? fun I => !I.isPHIOrDbgOrLifetime

/-! ## Invariant of the user loop -/

/-- Every global `g` of the module holds the literal `New` or an instruction
result as its initializer. -/
def initMasked (g : Nat) (New : ConstantInt) (M : Module) : Prop :=
  ∀ G ∈ M.globals, G.id = g →
    G.init = some (Value.constInt New) ∨ ∃ i, G.init = some (Value.inst i)

/-! ## Theorems -/

theorem xor_trunc_cancel (K v w : Nat) :
    (K % 2 ^ w) ^^^ ((K ^^^ v) % 2 ^ w) = v % 2 ^ w := by
  apply Nat.eq_of_testBit_eq
  intro i
  simp only [Nat.testBit_xor, Nat.testBit_mod_two_pow]
  by_cases h : i < w <;> simp [h]

theorem xor_mod_pow (K v w : Nat) :
    (K ^^^ v) % 2 ^ w = (K % 2 ^ w) ^^^ (v % 2 ^ w) := by
  apply Nat.eq_of_testBit_eq
  intro i
  simp only [Nat.testBit_xor, Nat.testBit_mod_two_pow]
  by_cases h : i < w <;> simp [h]

theorem mod_mod_pow_le (K a b : Nat) (h : b ≤ a) : (K % 2 ^ a) % 2 ^ b = K % 2 ^ b :=
  Nat.mod_mod_of_dvd K (Nat.pow_dvd_pow 2 h)

/-- The pair built from a draw `K` for a literal of width `w`. -/
theorem pair_facts (K w v : Nat) (hv : v < 2 ^ w) :
    (ConstantInt.get w K).val = K % 2 ^ w ∧
    (ConstantInt.get w (K ^^^ v)).val = (ConstantInt.get w K).val ^^^ v ∧
    (ConstantInt.get w K).val < 2 ^ w ∧ (ConstantInt.get w (K ^^^ v)).val < 2 ^ w ∧
    (ConstantInt.get w K).val ^^^ (ConstantInt.get w (K ^^^ v)).val = v := by
  have hp : 0 < 2 ^ w := Nat.two_pow_pos w
  refine ⟨rfl, ?_, Nat.mod_lt _ hp, Nat.mod_lt _ hp, ?_⟩
  · simp only [ConstantInt.get]
    rw [xor_mod_pow, Nat.mod_eq_of_lt hv]
  · simp only [ConstantInt.get]
    rw [xor_trunc_cancel, Nat.mod_eq_of_lt hv]

/-- What `PairConstantInt` returns for a literal of supported width. -/
theorem PairConstantInt_spec (rng : CryptoUtils) (C : ConstantInt)
    (hw : C.width = 1 ∨ C.width = 8 ∨ C.width = 16 ∨ C.width = 32 ∨ C.width = 64)
    (hv : C.val < 2 ^ C.width) :
    ∃ Key New : ConstantInt,
      (PairConstantInt rng C).1 = (some Key, some New) ∧
      Key.width = C.width ∧ New.width = C.width ∧
      Key.val = (rng.draw).1 % 2 ^ C.width ∧
      New.val = (Key.val ^^^ C.val) ∧
      Key.val < 2 ^ C.width ∧ New.val < 2 ^ C.width ∧
      Key.val ^^^ New.val = C.val := by
  obtain ⟨w, v⟩ := C
  simp only at hw hv ⊢
  rcases hw with h | h | h | h | h <;> subst h
  · obtain ⟨h1, h2, h3, h4, h5⟩ := pair_facts (rng.get_uint8_t).1 1 v hv
    refine ⟨_, _, by simp [PairConstantInt], rfl, rfl, ?_, h2, h3, h4, h5⟩
    rw [h1]; exact mod_mod_pow_le _ 8 1 (by decide)
  · obtain ⟨h1, h2, h3, h4, h5⟩ := pair_facts (rng.get_uint8_t).1 8 v hv
    refine ⟨_, _, by simp [PairConstantInt], rfl, rfl, ?_, h2, h3, h4, h5⟩
    rw [h1]; exact mod_mod_pow_le _ 8 8 (by decide)
  · obtain ⟨h1, h2, h3, h4, h5⟩ := pair_facts (rng.get_uint16_t).1 16 v hv
    refine ⟨_, _, by simp [PairConstantInt], rfl, rfl, ?_, h2, h3, h4, h5⟩
    rw [h1]; exact mod_mod_pow_le _ 16 16 (by decide)
  · obtain ⟨h1, h2, h3, h4, h5⟩ := pair_facts (rng.get_uint32_t).1 32 v hv
    refine ⟨_, _, by simp [PairConstantInt], rfl, rfl, ?_, h2, h3, h4, h5⟩
    rw [h1]; exact mod_mod_pow_le _ 32 32 (by decide)
  · obtain ⟨h1, h2, h3, h4, h5⟩ := pair_facts (rng.get_uint64_t).1 64 v hv
    refine ⟨_, _, by simp [PairConstantInt], rfl, rfl, ?_, h2, h3, h4, h5⟩
    rw [h1]; exact mod_mod_pow_le _ 64 64 (by decide)

theorem take_takeWhile_length {α : Type} (p : α → Bool) (l : List α) :
    l.take (l.takeWhile p).length = l.takeWhile p := by
  induction l with
  | nil => rfl
  | cons a t ih =>
    by_cases h : p a
    · simp [List.takeWhile_cons, h, ih]
    · simp [List.takeWhile_cons, h]

theorem drop_takeWhile_length {α : Type} (p : α → Bool) (l : List α) :
    l.drop (l.takeWhile p).length = l.dropWhile p := by
  induction l with
  | nil => rfl
  | cons a t ih =>
    by_cases h : p a
    · simp [List.takeWhile_cons, List.dropWhile_cons, h, ih]
    · simp [List.takeWhile_cons, List.dropWhile_cons, h]

theorem endsInOneTerminator_iff (b : BasicBlock) :
    b.endsInOneTerminator = true ↔
      ∃ body T, b.insts = body ++ [T] ∧ T.isTerminator = true ∧
        ∀ I ∈ body, I.isTerminator = false := by
  unfold BasicBlock.endsInOneTerminator
  constructor
  · intro h
    rw [Bool.and_eq_true] at h
    obtain ⟨h1, h2⟩ := h
    cases hl : b.insts.getLast? with
    | none => rw [hl] at h1; simp at h1
    | some T =>
      rw [hl] at h1
      have hne : b.insts ≠ [] := by
        intro h0; rw [h0] at hl; simp at hl
      refine ⟨b.insts.dropLast, T, ?_, h1, ?_⟩
      · have := List.dropLast_append_getLast hne
        rw [List.getLast?_eq_getLast _ hne] at hl
        injection hl with hl
        rw [hl] at this
        exact this.symm
      · intro I hI
        have := (List.all_eq_true.mp h2) I hI
        simpa using this
  · rintro ⟨body, T, hb, hT, hbody⟩
    rw [hb]
    simp [hT]
    intro I hI
    exact hbody I hI

theorem marker_not_terminator (I : Instruction) (h : I.isPHIOrDbgOrLifetime = true) :
    I.isTerminator = false := by
  unfold Instruction.isPHIOrDbgOrLifetime at h
  unfold Instruction.isTerminator
  cases hop : I.opcode <;> rw [hop] at h <;> simp at h ⊢

theorem dropWhile_marker_ne_nil (b : BasicBlock) (h : b.endsInOneTerminator = true) :
    (b.insts.dropWhile fun I => I.isPHIOrDbgOrLifetime) ≠ [] := by
  obtain ⟨body, T, hb, hT, -⟩ := (endsInOneTerminator_iff b).mp h
  intro h0
  rw [List.dropWhile_eq_nil_iff] at h0
  have := h0 T (by rw [hb]; simp)
  have h2 := marker_not_terminator T this
  rw [hT] at h2
  exact Bool.noConfusion h2

theorem HandleInlineHookAArch64_some (self : AntiHook) (M : Module) (rng : CryptoUtils)
    (F : Function) (A : BasicBlock) (rest : List BasicBlock) (hF : F.blocks = A :: rest)
    (hA : (A.insts.dropWhile fun I => I.isPHIOrDbgOrLifetime) ≠ []) :
    HandleInlineHookAArch64 self M rng F = some
      ({ F with blocks :=
          { A with insts := (A.insts.takeWhile fun I => I.isPHIOrDbgOrLifetime) ++
              [mkInst (M.fresh + 5) Opcode.br [Value.block (M.fresh + 2)] none] } ::
          { label := M.fresh, name := "",
            insts := A.insts.dropWhile fun I => I.isPHIOrDbgOrLifetime } ::
          rest ++
          [ { label := M.fresh + 1, name := "HookDetectedHandler",
              insts := (CreateCallbackAndJumpBack self
                { M with fresh := M.fresh + 27 } rng M.fresh).1 },
            { label := M.fresh + 2, name := "",
              insts := detectInsts (M.fresh + 6) F.name (M.fresh + 1) (M.fresh + 3) },
            { label := M.fresh + 3, name := "",
              insts := detect2Insts (M.fresh + 14) F.name (M.fresh + 1) M.fresh } ] },
       (CreateCallbackAndJumpBack self { M with fresh := M.fresh + 27 } rng M.fresh).2.1,
       (CreateCallbackAndJumpBack self { M with fresh := M.fresh + 27 } rng M.fresh).2.2) := by
  unfold HandleInlineHookAArch64
  rw [hF]
  simp only [BasicBlock.getFirstNonPHIOrDbgOrLifetime]
  have hne : (A.insts.dropWhile fun I => I.isPHIOrDbgOrLifetime).isEmpty = false := by
    cases h : (A.insts.dropWhile fun I => I.isPHIOrDbgOrLifetime) with
    | nil => exact absurd h hA
    | cons a t => rfl
  simp [hne, BasicBlock.splitBasicBlock, BasicBlock.eraseTerminator, take_takeWhile_length,
    drop_takeWhile_length, mkInst, Instruction.isTerminator]

theorem shr_mod32 (x s : Nat) :
    ((x % 4294967296) >>> s) % 4294967296 = (x % 4294967296) >>> s := by
  apply Nat.mod_eq_of_lt
  rw [Nat.shiftRight_eq_div_pow]
  exact lt_of_le_of_lt (Nat.div_le_self _ _) (Nat.mod_lt _ (by decide))

theorem detect_regs (mc : Machine) (fr : Frame) (n : Nat) (F : String) (B D2 : Nat) :
    (execInsts mc fr (detectInsts n F B D2)).regs (n + 3)
        = (if (fr.mem (mc.funcAddr F) % 2 ^ 32) >>> 26 = AARCH64_SIGNATURE_B then 1 else 0) ∧
    (execInsts mc fr (detectInsts n F B D2)).regs (n + 5)
        = (if (fr.mem (mc.funcAddr F) % 2 ^ 32) >>> 21 = AARCH64_SIGNATURE_BRK then 1 else 0) := by
  simp [execInsts, detectInsts, mkInst, execInst, evalValue, Frame.setReg, ConstantInt.get,
    AARCH64_SIGNATURE_B, AARCH64_SIGNATURE_BRK, shr_mod32]

theorem detect2_regs (mc : Machine) (fr : Frame) (n : Nat) (F : String) (B C : Nat) :
    (execInsts mc fr (detect2Insts n F B C)).regs (n + 5)
        = (if (fr.mem ((mc.funcAddr F + 4) % 2 ^ 64) % 2 ^ 32) >>> 10
              = AARCH64_SIGNATURE_BR then 1 else 0) ∧
    (execInsts mc fr (detect2Insts n F B C)).regs (n + 10)
        = (if (fr.mem ((mc.funcAddr F + 8) % 2 ^ 64) % 2 ^ 32) >>> 10
              = AARCH64_SIGNATURE_BR then 1 else 0) := by
  simp [execInsts, detect2Insts, mkInst, execInst, evalValue, Frame.setReg, ConstantInt.get,
    AARCH64_SIGNATURE_BR, shr_mod32]

theorem execInst_marker (mc : Machine) (fr : Frame) (I : Instruction)
    (h : I.isPHIOrDbgOrLifetime = true) : execInst mc fr I = fr := by
  unfold Instruction.isPHIOrDbgOrLifetime at h
  unfold execInst
  cases hop : I.opcode <;> rw [hop] at h <;> simp at h ⊢

theorem execBlock_markers (mc : Machine) (fr : Frame) (l : List Instruction) (T : Instruction)
    (hl : ∀ I ∈ l, I.isPHIOrDbgOrLifetime = true) (hT : T.isTerminator = true) :
    execBlock mc fr (l ++ [T]) = (fr, successor mc fr T) := by
  induction l with
  | nil => simp [execBlock, hT]
  | cons a t ih =>
    have ha := hl a (by simp)
    have ht : ∀ I ∈ t, I.isPHIOrDbgOrLifetime = true := fun I hI => hl I (by simp [hI])
    simp only [List.cons_append, execBlock, marker_not_terminator a ha, execInst_marker mc fr a ha]
    simpa using ih ht

theorem execBlock_detect (mc : Machine) (fr : Frame) (n : Nat) (F : String) (B D2 : Nat) :
    (execBlock mc fr (detectInsts n F B D2)).2 = some
      (if (fr.mem (mc.funcAddr F) % 2 ^ 32) >>> 26 = AARCH64_SIGNATURE_B ∨
          (fr.mem (mc.funcAddr F) % 2 ^ 32) >>> 21 = AARCH64_SIGNATURE_BRK then B else D2) ∧
    (execBlock mc fr (detectInsts n F B D2)).1.mem = fr.mem := by
  simp [execBlock, detectInsts, mkInst, execInst, evalValue, Frame.setReg, ConstantInt.get,
    AARCH64_SIGNATURE_B, AARCH64_SIGNATURE_BRK, shr_mod32, Instruction.isTerminator, successor]
  by_cases h1 : (fr.mem (mc.funcAddr F) % 4294967296) >>> 26 = 5 <;>
    by_cases h2 : (fr.mem (mc.funcAddr F) % 4294967296) >>> 21 = 1697 <;> simp [h1, h2]

theorem execBlock_detect2 (mc : Machine) (fr : Frame) (n : Nat) (F : String) (B C : Nat) :
    (execBlock mc fr (detect2Insts n F B C)).2 = some
      (if (fr.mem ((mc.funcAddr F + 4) % 2 ^ 64) % 2 ^ 32) >>> 10
            = AARCH64_SIGNATURE_BR ∨
          (fr.mem ((mc.funcAddr F + 8) % 2 ^ 64) % 2 ^ 32) >>> 10
            = AARCH64_SIGNATURE_BR then B else C) := by
  simp [execBlock, detect2Insts, mkInst, execInst, evalValue, Frame.setReg, ConstantInt.get,
    AARCH64_SIGNATURE_BR, shr_mod32, Instruction.isTerminator, successor]
  by_cases h1 : (fr.mem ((mc.funcAddr F + 4) % 18446744073709551616)
      % 4294967296) >>> 10 = 3508160 <;>
    by_cases h2 : (fr.mem ((mc.funcAddr F + 8) % 18446744073709551616)
      % 4294967296) >>> 10 = 3508160 <;> simp [h1, h2]

theorem find_fresh_none (rest : List BasicBlock) (n k : Nat)
    (h : ∀ b ∈ rest, b.label < n) :
    rest.find? (fun B => B.label == n + k) = none := by
  rw [List.find?_eq_none]
  intro b hb
  have := h b hb
  simp
  omega

theorem runPath_step (mc : Machine) (F : Function) (stop : Nat → Bool) (fuel label : Nat)
    (fr fr1 : Frame) (B : BasicBlock) (next : Nat)
    (hs : stop label = false) (hB : F.findBlock label = some B)
    (hex : execBlock mc fr B.insts = (fr1, some next)) :
    runPath mc F stop (fuel + 1) label fr = label :: runPath mc F stop fuel next fr1 := by
  simp [runPath, hs, hB, hex]

theorem runPath_stop (mc : Machine) (F : Function) (stop : Nat → Bool) (fuel label : Nat)
    (fr : Frame) (hs : stop label = true) :
    runPath mc F stop (fuel + 1) label fr = [label] := by
  simp [runPath, hs]

/-- Where the blocks of an instrumented function are found by label. -/
theorem findBlock_instrumented (F : Function) (A2 Cb Bb Db D2b : BasicBlock)
    (rest : List BasicBlock) (n : Nat)
    (hb : F.blocks = A2 :: Cb :: rest ++ [Bb, Db, D2b])
    (hA : A2.label < n) (hrest : ∀ b ∈ rest, b.label < n)
    (hC : Cb.label = n) (hB : Bb.label = n + 1) (hD : Db.label = n + 2)
    (hD2 : D2b.label = n + 3) :
    F.findBlock A2.label = some A2 ∧ F.findBlock n = some Cb ∧
    F.findBlock (n + 2) = some Db ∧ F.findBlock (n + 3) = some D2b := by
  have hr2 := find_fresh_none rest n 2 hrest
  have hr3 := find_fresh_none rest n 3 hrest
  have a0 : (A2.label == n) = false := by simp; omega
  have a2 : (A2.label == n + 2) = false := by simp; omega
  have a3 : (A2.label == n + 3) = false := by simp; omega
  refine ⟨?_, ?_, ?_, ?_⟩
  · simp [Function.findBlock, hb]
  · simp [Function.findBlock, hb, List.find?_cons, a0, hC]
  · simp [Function.findBlock, hb, List.find?_cons, List.find?_append, a2, hC, hB, hD, hr2]
  · simp [Function.findBlock, hb, List.find?_cons, List.find?_append, a3, hC, hB, hD, hD2, hr3]

theorem ends_of_parts (b : BasicBlock) (body : List Instruction) (T : Instruction)
    (h : b.insts = body ++ [T]) (hT : T.isTerminator = true)
    (hbody : ∀ I ∈ body, I.isTerminator = false) : b.endsInOneTerminator = true :=
  (endsInOneTerminator_iff b).mpr ⟨body, T, h, hT, hbody⟩

/-- The old half of a split entry block, closed by a branch, is well terminated. -/
theorem split_head_ends (A : BasicBlock) (tail : List Instruction) (T : Instruction)
    (htail : ∀ I ∈ tail, I.isTerminator = false) (hT : T.isTerminator = true) :
    ({ A with insts := (A.insts.takeWhile fun I => I.isPHIOrDbgOrLifetime) ++ (tail ++ [T]) }
      : BasicBlock).endsInOneTerminator = true := by
  apply ends_of_parts _ ((A.insts.takeWhile fun I => I.isPHIOrDbgOrLifetime) ++ tail) T
  · simp
  · exact hT
  · intro I hI
    rcases List.mem_append.mp hI with h | h
    · exact marker_not_terminator I (List.mem_takeWhile_imp h)
    · exact htail I h

/-- The new half of a split entry block is well terminated. -/
theorem split_tail_ends (A : BasicBlock) (n : Nat) (nm : String)
    (hwf : A.endsInOneTerminator = true) :
    ({ label := n, name := nm, insts := A.insts.dropWhile fun I => I.isPHIOrDbgOrLifetime }
      : BasicBlock).endsInOneTerminator = true := by
  obtain ⟨body, T, hb, hT, hbody⟩ := (endsInOneTerminator_iff A).mp hwf
  have hne := dropWhile_marker_ne_nil A hwf
  have hsplit := List.takeWhile_append_dropWhile (fun I => I.isPHIOrDbgOrLifetime) A.insts
  generalize hd : (A.insts.dropWhile fun I => I.isPHIOrDbgOrLifetime) = d at hne hsplit ⊢
  generalize (A.insts.takeWhile fun I => I.isPHIOrDbgOrLifetime) = t at hsplit
  have hd2 := (List.dropLast_append_getLast hne).symm
  rw [hb, hd2, ← List.append_assoc] at hsplit
  have h1 := List.append_inj' hsplit rfl
  apply ends_of_parts _ d.dropLast (d.getLast hne) hd2
  · have : d.getLast hne = T := by
      have := h1.2
      simpa using this
    rw [this]; exact hT
  · intro I hI
    apply hbody
    rw [← h1.1]
    exact List.mem_append_right _ hI

theorem CreateCallbackAndJumpBack_insts (self : AntiHook) (M : Module) (rng : CryptoUtils)
    (C : Nat) :
    ∃ callee id1 id2, (CreateCallbackAndJumpBack self M rng C).1 =
      [mkInst id1 Opcode.call [callee] none, mkInst id2 Opcode.br [Value.block C] none] := by
  unfold CreateCallbackAndJumpBack
  cases M.getFunction "AHCallBack" with
  | some f => exact ⟨_, _, _, rfl⟩
  | none =>
    by_cases h : (self.triple.isOSDarwin && self.triple.isAArch64) = true
    · simp only [h, if_true]; exact ⟨_, _, _, rfl⟩
    · simp only [h]; exact ⟨_, _, _, rfl⟩

/-- The handler block is well terminated. -/
theorem handler_ends (self : AntiHook) (M : Module) (rng : CryptoUtils) (C n : Nat)
    (nm : String) :
    ({ label := n, name := nm, insts := (CreateCallbackAndJumpBack self M rng C).1 }
      : BasicBlock).endsInOneTerminator = true := by
  obtain ⟨callee, id1, id2, h⟩ := CreateCallbackAndJumpBack_insts self M rng C
  simp [BasicBlock.endsInOneTerminator, h, mkInst, Instruction.isTerminator]

theorem split_erase (A : BasicBlock) (I newLabel brId : Nat) :
    (A.splitBasicBlock I newLabel brId).1.eraseTerminator
      = some { A with insts := A.insts.take I } := by
  simp [BasicBlock.splitBasicBlock, BasicBlock.eraseTerminator, mkInst,
    Instruction.isTerminator]

theorem HandleObjcRuntimeHook_some (self : AntiHook) (M : Module) (rng : CryptoUtils)
    (F : Function) (A : BasicBlock) (rest : List BasicBlock) (classname selname : String)
    (classmethod : Bool) (hF : F.blocks = A :: rest)
    (hA : (A.insts.dropWhile fun I => I.isPHIOrDbgOrLifetime) ≠ [])
    (hdecl : M.declaresObjcRuntime = true) :
    ∃ (tail : List Instruction) (T : Instruction) (M0 : Module),
      (∀ I ∈ tail, I.isTerminator = false) ∧ T.isTerminator = true ∧
      HandleObjcRuntimeHook self M rng F classname selname classmethod = some
        ({ F with blocks :=
            { A with insts := (A.insts.takeWhile fun I => I.isPHIOrDbgOrLifetime) ++
                (tail ++ [T]) } ::
            { label := M.fresh + 1, name := "HookDetectedHandler",
              insts := (CreateCallbackAndJumpBack self M0 rng M.fresh).1 } ::
            { label := M.fresh, name := "",
              insts := A.insts.dropWhile fun I => I.isPHIOrDbgOrLifetime } :: rest },
         (CreateCallbackAndJumpBack self M0 rng M.fresh).2.1,
         (CreateCallbackAndJumpBack self M0 rng M.fresh).2.2) := by
  unfold Module.declaresObjcRuntime at hdecl
  simp only [Bool.and_eq_true] at hdecl
  obtain ⟨⟨⟨⟨d1, d2⟩, d3⟩, d4⟩, d5⟩ := hdecl
  have hne : (A.insts.dropWhile fun I => I.isPHIOrDbgOrLifetime).isEmpty = false := by
    cases h : (A.insts.dropWhile fun I => I.isPHIOrDbgOrLifetime) with
    | nil => exact absurd h hA
    | cons a t => rfl
  have d34 : (M.getFunction
      (if classmethod then "class_getClassMethod" else "class_getInstanceMethod")).isSome
      = true := by
    cases classmethod <;> simp [d3, d4]
  have isNone_of (x : Option Function) (h : x.isSome = true) : x.isNone = false := by
    cases x <;> simp at h ⊢
  have e1 := isNone_of _ d1
  have e2 := isNone_of _ d2
  have e3 := isNone_of _ d34
  have e5 := isNone_of _ d5
  refine ⟨
    [ mkInst (M.fresh + 5) Opcode.call
        [Value.func "objc_getClass", Value.castGlobal (M.fresh + 3)] none,
      mkInst (M.fresh + 5 + 1) Opcode.call
        [Value.func "sel_registerName", Value.castGlobal (M.fresh + 4)] none,
      mkInst (M.fresh + 5 + 2) Opcode.call
        [Value.func (if classmethod then "class_getClassMethod" else "class_getInstanceMethod"),
          Value.inst (M.fresh + 5), Value.inst (M.fresh + 5 + 1)] none,
      mkInst (M.fresh + 5 + 3) Opcode.call
        [Value.func "method_getImplementation", Value.inst (M.fresh + 5 + 2)] none,
      mkInst (M.fresh + 5 + 4) Opcode.bitCast [Value.inst (M.fresh + 5 + 3)] none,
      mkInst (M.fresh + 5 + 5) Opcode.icmpEq
        [Value.inst (M.fresh + 5 + 4), Value.func F.name] (some 1) ],
    mkInst (M.fresh + 5 + 6) Opcode.condBr
      [Value.inst (M.fresh + 5 + 5), Value.block M.fresh, Value.block (M.fresh + 1)] none,
    { M with
      globals := M.globals ++
        [{ id := M.fresh + 3, name := "", init := some (Value.cstring classname),
           linkage := Linkage.privateLinkage }] ++
        [{ id := M.fresh + 4, name := "", init := some (Value.cstring selname),
           linkage := Linkage.privateLinkage }],
      fresh := M.fresh + 12 }, ?h1, rfl, ?h3⟩
  case h1 =>
    intro I hI
    simp only [List.mem_cons, List.mem_singleton, List.not_mem_nil, or_false] at hI
    rcases hI with h | h | h | h | h | h <;> rw [h] <;> rfl
  case h3 =>
    unfold HandleObjcRuntimeHook
    rw [hF]
    simp only [BasicBlock.getFirstNonPHIOrDbgOrLifetime, hne]
    simp only [split_erase, e1, e2, e3, e5, Bool.or_self, Bool.false_eq_true, if_false,
      take_takeWhile_length]
    simp only [BasicBlock.splitBasicBlock, drop_takeWhile_length, Module.createGlobalStringPtr,
      Nat.add_assoc, Nat.reduceAdd, List.cons_append, List.nil_append]

theorem handler_last (self : AntiHook) (M : Module) (rng : CryptoUtils) (C n : Nat) :
    (n == n && "HookDetectedHandler" == "HookDetectedHandler" &&
      match (CreateCallbackAndJumpBack self M rng C).1.getLast? with
      | some T => T.opcode == Opcode.br && T.operands == [Value.block C]
      | none => false) = true := by
  obtain ⟨callee, id1, id2, h⟩ := CreateCallbackAndJumpBack_insts self M rng C
  simp [h, mkInst]

theorem inline_hook_ok (self : AntiHook) (M : Module) (rng : CryptoUtils) (F : Function)
    (hne : F.blocks ≠ []) (hwf : F.wellTerminated = true) :
    ∃ F1 M1 rng1, HandleInlineHookAArch64 self M rng F = some (F1, M1, rng1) ∧
      F1.blocks ≠ [] ∧ F1.wellTerminated = true ∧ F1.entryLabel = F.entryLabel ∧
      F1.handlerBranchesTo (M.fresh + 1) M.fresh = true := by
  obtain ⟨A, rest, hF⟩ : ∃ A rest, F.blocks = A :: rest := by
    cases h : F.blocks with
    | nil => exact absurd h hne
    | cons a t => exact ⟨a, t, rfl⟩
  unfold Function.wellTerminated at hwf
  rw [hF, List.all_cons, Bool.and_eq_true] at hwf
  obtain ⟨hA, hrest⟩ := hwf
  refine ⟨_, _, _, HandleInlineHookAArch64_some self M rng F A rest hF
    (dropWhile_marker_ne_nil A hA), by simp, ?_, ?_, ?_⟩
  · unfold Function.wellTerminated
    simp only [List.all_cons, List.all_append, List.all_nil, Bool.and_true, Bool.and_eq_true]
    refine ⟨⟨?_, split_tail_ends A _ _ hA, hrest⟩, handler_ends _ _ _ _ _ _, ?_, ?_⟩
    · exact split_head_ends A [] _ (by simp) rfl
    · simp [BasicBlock.endsInOneTerminator, detectInsts, mkInst, Instruction.isTerminator]
    · simp [BasicBlock.endsInOneTerminator, detect2Insts, mkInst, Instruction.isTerminator]
  · simp [Function.entryLabel, hF]
  · unfold Function.handlerBranchesTo
    simp only [List.any_cons, List.any_append, Bool.or_eq_true]
    right; left
    exact handler_last _ _ _ _ _

theorem objc_hook_ok (self : AntiHook) (M : Module) (rng : CryptoUtils) (F : Function)
    (classname selname : String) (classmethod : Bool)
    (hne : F.blocks ≠ []) (hwf : F.wellTerminated = true)
    (hdecl : M.declaresObjcRuntime = true) :
    ∃ F1 M1 rng1,
      HandleObjcRuntimeHook self M rng F classname selname classmethod = some (F1, M1, rng1) ∧
      F1.blocks ≠ [] ∧ F1.wellTerminated = true ∧ F1.entryLabel = F.entryLabel ∧
      F1.handlerBranchesTo (M.fresh + 1) M.fresh = true := by
  obtain ⟨A, rest, hF⟩ : ∃ A rest, F.blocks = A :: rest := by
    cases h : F.blocks with
    | nil => exact absurd h hne
    | cons a t => exact ⟨a, t, rfl⟩
  unfold Function.wellTerminated at hwf
  rw [hF, List.all_cons, Bool.and_eq_true] at hwf
  obtain ⟨hA, hrest⟩ := hwf
  obtain ⟨tail, T, M0, htail, hT, heq⟩ := HandleObjcRuntimeHook_some self M rng F A rest
    classname selname classmethod hF (dropWhile_marker_ne_nil A hA) hdecl
  refine ⟨_, _, _, heq, by simp, ?_, ?_, ?_⟩
  · unfold Function.wellTerminated
    simp only [List.all_cons, Bool.and_eq_true]
    exact ⟨split_head_ends A tail T htail hT, handler_ends _ _ _ _ _ _,
      split_tail_ends A _ _ hA, hrest⟩
  · simp [Function.entryLabel, hF]
  · unfold Function.handlerBranchesTo
    simp only [List.any_cons, Bool.or_eq_true]
    right; left
    exact handler_last _ _ _ _ _

theorem gate100 (s : Nat → Nat) (p : Nat) : s p % 100 ≤ 100 :=
  Nat.le_of_lt (Nat.mod_lt _ (by decide))

theorem runOnModule_addition_state (w : Nat) (hw : w = 8 ∨ w = 16 ∨ w = 32 ∨ w = 64)
    (s : Nat → Nat) (p : Nat) (ext : SubstituteImpl) (fuel : Nat) (flag : Bool) :
    runOnModule
        { flag := flag, SubstituteXor := false, ConstToGV := false,
          ObfProbRate := 100, ObfTimes := 1 } ext (fuel + 2)
        { M := additionModule w, rng := ⟨s, p⟩, errs := [], obfedbos := [] } =
      some (true,
        ⟨⟨[additionResult w (s (p + 1) % 2 ^ w) (s (p + 2) % 2 ^ w)], [], [], 5⟩, ⟨s, p + 4⟩,
          ["Running ConstantEncryption On f\n"], []⟩) := by
  rcases hw with h | h | h | h <;> subst h <;>
    simp [runOnModule, functionLoop, timesLoop, instLoop, visitInst, operandLoop,
        shouldEncryptConstant, HandleConstantIntOperand, PairConstantInt, additionModule,
        additionFunction, mkInst, Module.getFunction, Module.firstInst, Module.nextInst,
        Module.findInst, Module.instructions, Function.instructions, nextAfter,
        Instruction.isIntrinsicInst, CryptoUtils.get_range, CryptoUtils.draw,
        CryptoUtils.get_uint8_t, CryptoUtils.get_uint16_t, CryptoUtils.get_uint32_t,
        CryptoUtils.get_uint64_t, gate100, Module.insertBefore, Module.setOperand,
        Module.mapBlocks, insertBeforeL, createXor, ConstantInt.get, Value.stripPointerCasts,
        additionEncrypted, additionResult]

theorem exec_additionEncrypted (w K1 K2 : Nat) (hw : 15 < 2 ^ w) (mc : Machine) (fr : Frame) :
    (execInsts mc fr (additionEncrypted w K1 K2)).regs 1 = 15 := by
  have h5 : 5 < 2 ^ w := by omega
  have h10 : 10 < 2 ^ w := by omega
  obtain ⟨-, -, -, a4, a5⟩ := pair_facts K1 w 5 h5
  obtain ⟨-, -, -, b4, b5⟩ := pair_facts K2 w 10 h10
  rw [Nat.xor_comm] at a5 b5
  simp only [ConstantInt.get] at a4 a5 b4 b5
  simp [execInsts, additionEncrypted, createXor, mkInst, execInst, evalValue, Frame.setReg,
    ConstantInt.get]
  rw [a5, b5]
  exact Nat.mod_eq_of_lt hw

theorem initMasked_replaceUses (g : Nat) (New : ConstantInt) (M : Module) (old : Value)
    (x X : Nat) (h : initMasked g New M) :
    initMasked g New (M.replaceUsesWithIf old (Value.inst x) X) := by
  intro G hG hid
  simp only [Module.replaceUsesWithIf, Module.mapBlocks, List.mem_map] at hG
  obtain ⟨G0, hG0, rfl⟩ := hG
  by_cases hc : G0.init = some old
  · rw [if_pos hc]; exact Or.inr ⟨x, rfl⟩
  · rw [if_neg hc] at hid ⊢; exact h G0 hG0 hid

theorem handleUser_initMasked (self : ConstantEncryption) (ext : SubstituteImpl)
    (XORKey : ConstantInt) (g : Nat) (New : ConstantInt)
    (hsub : ∀ st x, (ext.substituteXor st x).M.globals = st.M.globals)
    (st : PassState) (U : Nat) (h : initMasked g New st.M) :
    initMasked g New (handleUser self ext XORKey st U).M := by
  have key : ∀ st1 : PassState, initMasked g New st1.M → ∀ x,
      initMasked g New (if self.SubstituteXor then ext.substituteXor st1 x else st1).M := by
    intro st1 h1 x
    by_cases hs : self.SubstituteXor = true
    · rw [if_pos hs]
      intro G hG hid
      rw [hsub] at hG
      exact h1 G hG hid
    · rw [if_neg hs]; exact h1
  unfold handleUser
  cases hf : st.M.findInst U with
  | none => exact h
  | some UI =>
    simp only
    by_cases hl : UI.opcode = Opcode.load
    · rw [if_pos hl]
      apply key
      apply initMasked_replaceUses
      exact h
    · rw [if_neg hl]
      by_cases hs : UI.opcode = Opcode.store
      · rw [if_pos hs]
        cases hops : UI.operands with
        | nil => exact h
        | cons op0 t =>
          simp only
          apply key
          apply initMasked_replaceUses
          exact h
      · rw [if_neg hs]; exact h

theorem foldl_handleUser_initMasked (self : ConstantEncryption) (ext : SubstituteImpl)
    (XORKey : ConstantInt) (g : Nat) (New : ConstantInt)
    (hsub : ∀ st x, (ext.substituteXor st x).M.globals = st.M.globals)
    (us : List Nat) (st : PassState) (h : initMasked g New st.M) :
    initMasked g New (us.foldl (handleUser self ext XORKey) st).M := by
  induction us generalizing st with
  | nil => exact h
  | cons u t ih =>
    exact ih _ (handleUser_initMasked self ext XORKey g New hsub st u h)

theorem initMasked_setInitializer (g : Nat) (New : ConstantInt) (M : Module) :
    initMasked g New (M.setInitializer g (Value.constInt New)) := by
  intro G hG hid
  simp only [Module.setInitializer, List.mem_map] at hG
  obtain ⟨G0, -, rfl⟩ := hG
  by_cases hc : G0.id = g
  · rw [if_pos hc]; exact Or.inl rfl
  · rw [if_neg hc] at hid; exact absurd hid hc

theorem xor_ne_self (a v : Nat) (ha : a ≠ 0) : a ^^^ v ≠ v := by
  intro h
  apply ha
  have := congrArg (fun t => t ^^^ v) h
  simpa [Nat.xor_assoc] using this

/-- The handler label occurs on the path exactly in the two tampered cases. -/
theorem path_mem_iff (a d d2 b c : Nat) (P Q : Prop) [Decidable P] [Decidable Q]
    (hba : b ≠ a) (hbd : b ≠ d) (hbd2 : b ≠ d2) (hbc : b ≠ c) :
    b ∈ (if P then [a, d, b] else if Q then [a, d, d2, b] else [a, d, d2, c]) ↔ P ∨ Q := by
  by_cases hP : P
  · simp [hP]
  · by_cases hQ : Q
    · simp [hP, hQ]
    · simp [hP, hQ, hba, hbd, hbd2, hbc]

/-- For a literal of unsupported width `PairConstantInt` returns two null
pointers and does not touch the random source. -/
theorem PairConstantInt_unsupported (rng : CryptoUtils) (C : ConstantInt)
    (hw : C.width ≠ 1 ∧ C.width ≠ 8 ∧ C.width ≠ 16 ∧ C.width ≠ 32 ∧ C.width ≠ 64) :
    PairConstantInt rng C = ((none, none), rng) := by
  obtain ⟨h1, h8, h16, h32, h64⟩ := hw
  simp [PairConstantInt, h1, h8, h16, h32, h64]

/-- The first instruction left by `dropWhile` is the first one that fails the
test. -/
theorem head_dropWhile_eq_find {α : Type} (p : α → Bool) (l : List α) :
    (l.dropWhile p).head? = l.find? fun a => !p a := by
  induction l with
  | nil => rfl
  | cons a t ih =>
    by_cases h : p a
    · simp [List.dropWhile_cons, List.find?_cons, h, ih]
    · simp [List.dropWhile_cons, List.find?_cons, h]

/-! ## The claims -/

/-- Claim C1: for a literal of width 1, 8, 16, 32 or 64 with value `C.val` and
any state of the random source, `PairConstantInt` returns a pair (Key, New) of
constants of the literal's width, the key being the draw reduced to the width
and the new literal the key XOR the value, with `Key XOR New` equal to the
value: key XOR (key XOR literal) is the literal. -/
theorem PairConstantInt_key_xor_new (rng : CryptoUtils) (C : ConstantInt)
    (hw : C.width = 1 ∨ C.width = 8 ∨ C.width = 16 ∨ C.width = 32 ∨ C.width = 64)
    (hv : C.val < 2 ^ C.width) :
    ∃ Key New : ConstantInt,
      (PairConstantInt rng C).1 = (some Key, some New) ∧
      Key.width = C.width ∧ New.width = C.width ∧
      Key.val = (rng.draw).1 % 2 ^ C.width ∧
      New.val = (Key.val ^^^ C.val) ∧
      Key.val < 2 ^ C.width ∧ New.val < 2 ^ C.width ∧
      Key.val ^^^ New.val = C.val :=
  PairConstantInt_spec rng C hw hv

theorem PairConstantInt_key_xor_new_witness :
    ((8 : Nat) = 1 ∨ (8 : Nat) = 8 ∨ (8 : Nat) = 16 ∨ (8 : Nat) = 32 ∨ (8 : Nat) = 64) ∧
    (42 : Nat) < 2 ^ 8 ∧
    ∃ Key New : ConstantInt,
      (PairConstantInt (constantSource 171) ⟨8, 42⟩).1 = (some Key, some New) ∧
      Key.val ^^^ New.val = 42 := by
  refine ⟨by decide, by decide, ?_⟩
  obtain ⟨Key, New, h, -, -, -, -, -, -, hx⟩ :=
    PairConstantInt_key_xor_new (constantSource 171) ⟨8, 42⟩ (by decide) (by decide)
  exact ⟨Key, New, h, hx⟩

/-- Claim C2: executing the checks that `HandleInlineHookAArch64` emits, on any
memory, the comparison `ICmpEQ2` of `Detect` is true iff the 32-bit word at
the function's address, shifted right by 26, is 0b000101 (unconditional
branch); `ICmpEQ3` is true iff that word shifted right by 21 is
0b11010100001 (trap); and the comparisons `ICmpEQ4` and `ICmpEQ5` of `Detect2`
are true iff the word at offset 4, respectively 8, shifted right by 10, is
0b1101011000011111000000 (indirect branch). -/
theorem decoder_classification (mc : Machine) (fr : Frame) (n m : Nat) (F : String)
    (B Detect2 C : Nat) :
    ((execInsts mc fr (detectInsts n F B Detect2)).regs (n + 3) = 1 ↔
      (fr.mem (mc.funcAddr F) % 2 ^ 32) >>> 26 = 0b000101) ∧
    ((execInsts mc fr (detectInsts n F B Detect2)).regs (n + 5) = 1 ↔
      (fr.mem (mc.funcAddr F) % 2 ^ 32) >>> 21 = 0b11010100001) ∧
    ((execInsts mc fr (detect2Insts m F B C)).regs (m + 5) = 1 ↔
      (fr.mem ((mc.funcAddr F + 4) % 2 ^ 64) % 2 ^ 32) >>> 10
        = 0b1101011000011111000000) ∧
    ((execInsts mc fr (detect2Insts m F B C)).regs (m + 10) = 1 ↔
      (fr.mem ((mc.funcAddr F + 8) % 2 ^ 64) % 2 ^ 32) >>> 10
        = 0b1101011000011111000000) := by
  obtain ⟨h1, h2⟩ := detect_regs mc fr n F B Detect2
  obtain ⟨h3, h4⟩ := detect2_regs mc fr m F B C
  rw [h1, h2, h3, h4]
  simp [AARCH64_SIGNATURE_B, AARCH64_SIGNATURE_BRK, AARCH64_SIGNATURE_BR]

/-- Claim C3: for every word, at most one of the three classifications holds:
no word has both `w >> 26 == AARCH64_SIGNATURE_B` and
`w >> 21 == AARCH64_SIGNATURE_BRK`, or `w >> 26 == AARCH64_SIGNATURE_B` and
`w >> 10 == AARCH64_SIGNATURE_BR`, or `w >> 21 == AARCH64_SIGNATURE_BRK` and
`w >> 10 == AARCH64_SIGNATURE_BR`. -/
theorem signatures_mutually_exclusive (w : Nat) :
    ¬ (w >>> 26 = AARCH64_SIGNATURE_B ∧ w >>> 21 = AARCH64_SIGNATURE_BRK) ∧
    ¬ (w >>> 26 = AARCH64_SIGNATURE_B ∧ w >>> 10 = AARCH64_SIGNATURE_BR) ∧
    ¬ (w >>> 21 = AARCH64_SIGNATURE_BRK ∧ w >>> 10 = AARCH64_SIGNATURE_BR) := by
  simp only [Nat.shiftRight_eq_div_pow, AARCH64_SIGNATURE_B, AARCH64_SIGNATURE_BRK,
    AARCH64_SIGNATURE_BR]
  refine ⟨?_, ?_, ?_⟩ <;> omega

/-- Claim C4, evaluated where it fails: with the probability rate 0 and the
draw 0 from `get_range(100)`, `shouldEncryptConstant` returns true for an
addition, and `runOnModule` encrypts both literal operands of the addition.
With the rate 0 an instruction that passes the structural test is let through
exactly when the draw is 0. -/
theorem shouldEncryptConstant_rate_zero_draw_zero :
    (shouldEncryptConstant { defaultPass with ObfProbRate := 0 } (constantSource 0)
      (mkInst 1 Opcode.add [Value.constInt ⟨32, 5⟩, Value.constInt ⟨32, 10⟩] (some 32))).1
      = true ∧
    ((runOnModule { defaultPass with ObfProbRate := 0 } keepXor 2
      { M := additionModule 32, rng := constantSource 0, errs := [], obfedbos := [] }).map
        fun r => r.2.M.functions)
      = some [additionResult 32 0 0] ∧
    (∀ (rng : CryptoUtils) (I : Instruction),
      (I.isIntrinsicInst || I.opcode == Opcode.getElementPtr || I.opcode == Opcode.phi
        || I.atomic) = false →
      ((shouldEncryptConstant { defaultPass with ObfProbRate := 0 } rng I).1 = true ↔
        (rng.get_range 100).1 = 0)) := by
  refine ⟨by decide, by decide, ?_⟩
  intro rng I hI
  unfold shouldEncryptConstant
  rw [hI]
  by_cases h : (rng.get_range 100).1 = 0
  · simp [h, defaultPass]
  · simp [h, defaultPass]

/-- Claim C5: when the probability rate is greater than 100, `runOnModule`
returns false whatever the module, the other options and the fuel; it writes
the configuration error to `errs()` and leaves the module, the random source
and the list of processed operators as they were. -/
theorem runOnModule_rejects_rate_above_100 (self : ConstantEncryption) (ext : SubstituteImpl)
    (fuel : Nat) (st : PassState) (h : self.ObfProbRate > 100) :
    ∃ st1 : PassState, runOnModule self ext fuel st = some (false, st1) ∧
      st1.M = st.M ∧ st1.rng = st.rng ∧ st1.obfedbos = st.obfedbos ∧
      st1.errs = st.errs ++ ["ConstantEncryption application instruction percentage " ++
        "-constenc_prob=x must be 0 < x <= 100"] := by
  refine ⟨{ st with errs := st.errs ++
    ["ConstantEncryption application instruction percentage " ++
      "-constenc_prob=x must be 0 < x <= 100"] }, ?_, rfl, rfl, rfl, rfl⟩
  unfold runOnModule
  rw [if_pos h]

theorem runOnModule_rejects_rate_above_100_witness :
    (150 : Nat) > 100 ∧
    ∃ st1 : PassState,
      runOnModule { defaultPass with ObfProbRate := 150 } keepXor 0
        { M := additionModule 32, rng := constantSource 0, errs := [], obfedbos := [] }
        = some (false, st1) ∧ st1.M = additionModule 32 := by
  refine ⟨by decide, ?_⟩
  obtain ⟨st1, h, hM, -, -, -⟩ :=
    runOnModule_rejects_rate_above_100 { defaultPass with ObfProbRate := 150 } keepXor 0
      { M := additionModule 32, rng := constantSource 0, errs := [], obfedbos := [] }
      (by decide)
  exact ⟨st1, h, hM⟩

/-- Claim C6: for a function whose entry block `A` is well terminated and whose
labels are below the module's fresh counter, `HandleInlineHookAArch64`
succeeds and, with `w0`, `w1`, `w2` the 32-bit words at the function's
address, at +4 and at +8, control from the entry passes A, Detect, B when `w0`
matches the branch or the trap signature; A, Detect, Detect2, B when it does
not and `w1` or `w2` matches the indirect-branch signature; and A, Detect,
Detect2, C otherwise. The block C holds the instructions of the original
entry block from its first real instruction on, in their order, and A keeps
the markers before it, closed by the branch to Detect. The labels are
`fresh` (C), `fresh + 1` (B), `fresh + 2` (Detect), `fresh + 3` (Detect2). -/
theorem inline_hook_control_flow (self : AntiHook) (M : Module) (rng : CryptoUtils)
    (F : Function) (A : BasicBlock) (rest : List BasicBlock) (mc : Machine) (fr : Frame)
    (fuel : Nat)
    (hF : F.blocks = A :: rest)
    (hwf : A.endsInOneTerminator = true)
    (hfresh : ∀ b ∈ F.blocks, b.label < M.fresh) :
    ∃ F1 M1 rng1, HandleInlineHookAArch64 self M rng F = some (F1, M1, rng1) ∧
      runPath mc F1 (fun l => l == M.fresh || l == M.fresh + 1) (fuel + 4) A.label fr =
        (if (fr.mem (mc.funcAddr F.name) % 2 ^ 32) >>> 26 = AARCH64_SIGNATURE_B ∨
            (fr.mem (mc.funcAddr F.name) % 2 ^ 32) >>> 21 = AARCH64_SIGNATURE_BRK then
          [A.label, M.fresh + 2, M.fresh + 1]
        else if (fr.mem ((mc.funcAddr F.name + 4) % 2 ^ 64) % 2 ^ 32) >>> 10
              = AARCH64_SIGNATURE_BR ∨
            (fr.mem ((mc.funcAddr F.name + 8) % 2 ^ 64) % 2 ^ 32) >>> 10
              = AARCH64_SIGNATURE_BR then
          [A.label, M.fresh + 2, M.fresh + 3, M.fresh + 1]
        else [A.label, M.fresh + 2, M.fresh + 3, M.fresh]) ∧
      (M.fresh + 1 ∈
          runPath mc F1 (fun l => l == M.fresh || l == M.fresh + 1) (fuel + 4) A.label fr ↔
        ((fr.mem (mc.funcAddr F.name) % 2 ^ 32) >>> 26 = AARCH64_SIGNATURE_B ∨
          (fr.mem (mc.funcAddr F.name) % 2 ^ 32) >>> 21 = AARCH64_SIGNATURE_BRK) ∨
        ((fr.mem ((mc.funcAddr F.name + 4) % 2 ^ 64) % 2 ^ 32) >>> 10
            = AARCH64_SIGNATURE_BR ∨
          (fr.mem ((mc.funcAddr F.name + 8) % 2 ^ 64) % 2 ^ 32) >>> 10
            = AARCH64_SIGNATURE_BR)) ∧
      F1.findBlock M.fresh = some
        { label := M.fresh, name := "",
          insts := A.insts.dropWhile fun I => I.isPHIOrDbgOrLifetime } ∧
      F1.blocks.head? = some
        { A with insts := (A.insts.takeWhile fun I => I.isPHIOrDbgOrLifetime) ++
            [mkInst (M.fresh + 5) Opcode.br [Value.block (M.fresh + 2)] none] } ∧
      (A.insts.takeWhile fun I => I.isPHIOrDbgOrLifetime) ++
        (A.insts.dropWhile fun I => I.isPHIOrDbgOrLifetime) = A.insts := by
  have hA := dropWhile_marker_ne_nil A hwf
  have hAl : A.label < M.fresh := hfresh A (by rw [hF]; simp)
  have hrest : ∀ b ∈ rest, b.label < M.fresh := fun b hb => hfresh b (by rw [hF]; simp [hb])
  obtain ⟨hfA, hfC, hfD, hfD2⟩ := findBlock_instrumented _ _ _ _ _ _ rest M.fresh
    (rfl : ({ F with blocks :=
          { A with insts := (A.insts.takeWhile fun I => I.isPHIOrDbgOrLifetime) ++
              [mkInst (M.fresh + 5) Opcode.br [Value.block (M.fresh + 2)] none] } ::
          { label := M.fresh, name := "",
            insts := A.insts.dropWhile fun I => I.isPHIOrDbgOrLifetime } ::
          rest ++
          [ { label := M.fresh + 1, name := "HookDetectedHandler",
              insts := (CreateCallbackAndJumpBack self
                { M with fresh := M.fresh + 27 } rng M.fresh).1 },
            { label := M.fresh + 2, name := "",
              insts := detectInsts (M.fresh + 6) F.name (M.fresh + 1) (M.fresh + 3) },
            { label := M.fresh + 3, name := "",
              insts := detect2Insts (M.fresh + 14) F.name (M.fresh + 1) M.fresh } ] }
          : Function).blocks = _) hAl hrest rfl rfl rfl rfl
  have hpath : runPath mc
      ({ F with blocks :=
          { A with insts := (A.insts.takeWhile fun I => I.isPHIOrDbgOrLifetime) ++
              [mkInst (M.fresh + 5) Opcode.br [Value.block (M.fresh + 2)] none] } ::
          { label := M.fresh, name := "",
            insts := A.insts.dropWhile fun I => I.isPHIOrDbgOrLifetime } ::
          rest ++
          [ { label := M.fresh + 1, name := "HookDetectedHandler",
              insts := (CreateCallbackAndJumpBack self
                { M with fresh := M.fresh + 27 } rng M.fresh).1 },
            { label := M.fresh + 2, name := "",
              insts := detectInsts (M.fresh + 6) F.name (M.fresh + 1) (M.fresh + 3) },
            { label := M.fresh + 3, name := "",
              insts := detect2Insts (M.fresh + 14) F.name (M.fresh + 1) M.fresh } ] }
          : Function)
      (fun l => l == M.fresh || l == M.fresh + 1) (fuel + 4) A.label fr =
        (if (fr.mem (mc.funcAddr F.name) % 2 ^ 32) >>> 26 = AARCH64_SIGNATURE_B ∨
            (fr.mem (mc.funcAddr F.name) % 2 ^ 32) >>> 21 = AARCH64_SIGNATURE_BRK then
          [A.label, M.fresh + 2, M.fresh + 1]
        else if (fr.mem ((mc.funcAddr F.name + 4) % 2 ^ 64) % 2 ^ 32) >>> 10
              = AARCH64_SIGNATURE_BR ∨
            (fr.mem ((mc.funcAddr F.name + 8) % 2 ^ 64) % 2 ^ 32) >>> 10
              = AARCH64_SIGNATURE_BR then
          [A.label, M.fresh + 2, M.fresh + 3, M.fresh + 1]
        else [A.label, M.fresh + 2, M.fresh + 3, M.fresh]) := ?_
  · refine ⟨_, _, _, HandleInlineHookAArch64_some self M rng F A rest hF hA, hpath, ?_, hfC,
      rfl, List.takeWhile_append_dropWhile _ _⟩
    rw [hpath]
    exact path_mem_iff A.label (M.fresh + 2) (M.fresh + 3) (M.fresh + 1) M.fresh _ _
      (by omega) (by omega) (by omega) (by omega)
  have hmark : ∀ I ∈ (A.insts.takeWhile fun I => I.isPHIOrDbgOrLifetime),
      I.isPHIOrDbgOrLifetime = true := fun I hI => List.mem_takeWhile_imp hI
  have e1 := execBlock_markers mc fr _
    (mkInst (M.fresh + 5) Opcode.br [Value.block (M.fresh + 2)] none) hmark rfl
  obtain ⟨e2, e2m⟩ := execBlock_detect mc fr (M.fresh + 6) F.name (M.fresh + 1) (M.fresh + 3)
  have e3 := execBlock_detect2 mc
    (execBlock mc fr (detectInsts (M.fresh + 6) F.name (M.fresh + 1) (M.fresh + 3))).1
    (M.fresh + 14) F.name (M.fresh + 1) M.fresh
  rw [e2m] at e3
  have s0 : (fun l => l == M.fresh || l == M.fresh + 1) A.label = false := by
    simp; omega
  have s2 : (fun l => l == M.fresh || l == M.fresh + 1) (M.fresh + 2) = false := by simp
  have s3 : (fun l => l == M.fresh || l == M.fresh + 1) (M.fresh + 3) = false := by simp
  have sB : (fun l => l == M.fresh || l == M.fresh + 1) (M.fresh + 1) = true := by simp
  have sC : (fun l => l == M.fresh || l == M.fresh + 1) M.fresh = true := by simp
  rw [runPath_step mc _ _ (fuel + 3) A.label fr fr _ (M.fresh + 2) s0 hfA e1]
  by_cases c1 : (fr.mem (mc.funcAddr F.name) % 2 ^ 32) >>> 26 = AARCH64_SIGNATURE_B ∨
      (fr.mem (mc.funcAddr F.name) % 2 ^ 32) >>> 21 = AARCH64_SIGNATURE_BRK
  · rw [if_pos c1] at e2
    rw [if_pos c1, runPath_step mc _ _ (fuel + 2) (M.fresh + 2) fr _ _ (M.fresh + 1) s2 hfD
      (Prod.ext rfl e2), runPath_stop mc _ _ (fuel + 1) (M.fresh + 1) _ sB]
  · rw [if_neg c1] at e2
    rw [if_neg c1, runPath_step mc _ _ (fuel + 2) (M.fresh + 2) fr _ _ (M.fresh + 3) s2 hfD
      (Prod.ext rfl e2)]
    by_cases c2 : (fr.mem ((mc.funcAddr F.name + 4) % 2 ^ 64) % 2 ^ 32) >>> 10
            = AARCH64_SIGNATURE_BR ∨
          (fr.mem ((mc.funcAddr F.name + 8) % 2 ^ 64) % 2 ^ 32) >>> 10
            = AARCH64_SIGNATURE_BR
    · rw [if_pos c2] at e3
      rw [if_pos c2, runPath_step mc _ _ (fuel + 1) (M.fresh + 3) _ _ _ (M.fresh + 1) s3 hfD2
        (Prod.ext rfl e3), runPath_stop mc _ _ fuel (M.fresh + 1) _ sB]
    · rw [if_neg c2] at e3
      rw [if_neg c2, runPath_step mc _ _ (fuel + 1) (M.fresh + 3) _ _ _ M.fresh s3 hfD2
        (Prod.ext rfl e3), runPath_stop mc _ _ fuel M.fresh _ sC]

theorem inline_hook_control_flow_witness :
    sampleFunction.blocks = sampleEntry :: [sampleExit] ∧
    sampleEntry.endsInOneTerminator = true ∧
    (∀ b ∈ sampleFunction.blocks, b.label < sampleModule.fresh) ∧
    ∃ F1 M1 rng1,
      HandleInlineHookAArch64 sampleAntiHook sampleModule (constantSource 7) sampleFunction
        = some (F1, M1, rng1) ∧
      runPath sampleMachine F1 (fun l => l == 100 || l == 101) 4 0 trapFrame
        = [0, 102, 101] := by
  refine ⟨rfl, by decide, by decide, ?_⟩
  obtain ⟨F1, M1, rng1, h, hp, -⟩ :=
    inline_hook_control_flow sampleAntiHook sampleModule (constantSource 7) sampleFunction
      sampleEntry [sampleExit] sampleMachine trapFrame 0 rfl (by decide) (by decide)
  rw [if_pos (by decide)] at hp
  exact ⟨F1, M1, rng1, h, hp⟩

/-- Claim C7: for a function with at least one block, all of whose blocks end
in exactly one terminator, `HandleInlineHookAArch64` succeeds, and so does
`HandleObjcRuntimeHook` in a module that declares the runtime entry points,
on the function as it is or after `HandleInlineHookAArch64`; in each case
every block of the result ends in exactly one terminator, the entry block has
the label of the original entry block, and the block `HookDetectedHandler`
ends in an unconditional branch to the continuation block, whatever the
target and whether or not the module defines `AHCallBack`. -/
theorem hooks_preserve_block_structure (self : AntiHook) (M M2 : Module)
    (rng rng2 : CryptoUtils) (F : Function) (classname selname : String) (classmethod : Bool)
    (hne : F.blocks ≠ []) (hwf : F.wellTerminated = true)
    (hdecl : M2.declaresObjcRuntime = true) :
    (∃ F1 M1 rng1, HandleInlineHookAArch64 self M rng F = some (F1, M1, rng1) ∧
      F1.wellTerminated = true ∧ F1.entryLabel = F.entryLabel ∧
      F1.handlerBranchesTo (M.fresh + 1) M.fresh = true) ∧
    (∃ F2 M3 rng3,
      HandleObjcRuntimeHook self M2 rng2 F classname selname classmethod
        = some (F2, M3, rng3) ∧
      F2.wellTerminated = true ∧ F2.entryLabel = F.entryLabel ∧
      F2.handlerBranchesTo (M2.fresh + 1) M2.fresh = true) ∧
    (∃ F1 M1 rng1 F3 M3 rng3,
      HandleInlineHookAArch64 self M rng F = some (F1, M1, rng1) ∧
      HandleObjcRuntimeHook self M2 rng2 F1 classname selname classmethod
        = some (F3, M3, rng3) ∧
      F3.wellTerminated = true ∧ F3.entryLabel = F.entryLabel ∧
      F3.handlerBranchesTo (M2.fresh + 1) M2.fresh = true) := by
  obtain ⟨F1, M1, r1, h1, n1, w1, e1, b1⟩ := inline_hook_ok self M rng F hne hwf
  obtain ⟨F2, M3, r3, h2, -, w2, e2, b2⟩ :=
    objc_hook_ok self M2 rng2 F classname selname classmethod hne hwf hdecl
  obtain ⟨F3, M4, r4, h3, -, w3, e3, b3⟩ :=
    objc_hook_ok self M2 rng2 F1 classname selname classmethod n1 w1 hdecl
  exact ⟨⟨F1, M1, r1, h1, w1, e1, b1⟩, ⟨F2, M3, r3, h2, w2, e2, b2⟩,
    ⟨F1, M1, r1, F3, M4, r4, h1, h3, w3, e3.trans e1, b3⟩⟩

theorem hooks_preserve_block_structure_witness :
    sampleFunction.blocks ≠ [] ∧ sampleFunction.wellTerminated = true ∧
    sampleModule.declaresObjcRuntime = true ∧
    ∃ F1 M1 rng1,
      HandleInlineHookAArch64 sampleAntiHook sampleModule (constantSource 7) sampleFunction
        = some (F1, M1, rng1) ∧
      F1.wellTerminated = true := by
  refine ⟨by decide, by decide, by decide, ?_⟩
  obtain ⟨⟨F1, M1, rng1, h, hw, -⟩, -⟩ :=
    hooks_preserve_block_structure sampleAntiHook sampleModule sampleModule (constantSource 7)
      (constantSource 7) sampleFunction "Cls" "sel" false (by decide) (by decide) (by decide)
  exact ⟨F1, M1, rng1, h, hw⟩

/-- Claim C8: with probability rate 100, one pass and the other options at
their defaults, for the function that adds the literals 5 and 10 of width 8,
16, 32 or 64 and for any random source, `runOnModule` returns true and the
function becomes `additionResult`: two XOR instructions right before the
addition, whose results are the operands of the addition, each with the key
as second operand and a first operand that XORed with the key is 5,
respectively 10; the addition evaluates to 15 before and after. -/
theorem addition_scenario (w : Nat) (hw : w = 8 ∨ w = 16 ∨ w = 32 ∨ w = 64)
    (rng : CryptoUtils) (ext : SubstituteImpl) (fuel : Nat) (flag : Bool) :
    ∃ st1 : PassState,
      runOnModule
        { flag := flag, SubstituteXor := false, ConstToGV := false,
          ObfProbRate := 100, ObfTimes := 1 } ext (fuel + 2)
        { M := additionModule w, rng := rng, errs := [], obfedbos := [] } = some (true, st1) ∧
      st1.M.functions = [additionResult w (rng.stream (rng.pos + 1) % 2 ^ w)
        (rng.stream (rng.pos + 2) % 2 ^ w)] ∧
      (ConstantInt.get w (rng.stream (rng.pos + 1) % 2 ^ w ^^^ 5)).val ^^^
        (ConstantInt.get w (rng.stream (rng.pos + 1) % 2 ^ w)).val = 5 ∧
      (ConstantInt.get w (rng.stream (rng.pos + 2) % 2 ^ w ^^^ 10)).val ^^^
        (ConstantInt.get w (rng.stream (rng.pos + 2) % 2 ^ w)).val = 10 ∧
      ∀ (mc : Machine) (fr : Frame),
        (execInsts mc fr (additionFunction w).instructions).regs 1 = 15 ∧
        (execInsts mc fr (additionResult w (rng.stream (rng.pos + 1) % 2 ^ w)
          (rng.stream (rng.pos + 2) % 2 ^ w)).instructions).regs 1 = 15 := by
  obtain ⟨s, p⟩ := rng
  have h15 : 15 < 2 ^ w := by rcases hw with h | h | h | h <;> subst h <;> decide
  have h5 : 5 < 2 ^ w := by omega
  have h10 : 10 < 2 ^ w := by omega
  refine ⟨_, runOnModule_addition_state w hw s p ext fuel flag, rfl, ?_, ?_, ?_⟩
  · rw [Nat.xor_comm]; exact (pair_facts _ w 5 h5).2.2.2.2
  · rw [Nat.xor_comm]; exact (pair_facts _ w 10 h10).2.2.2.2
  · intro mc fr
    constructor
    · simp [execInsts, additionFunction, Function.instructions, mkInst, execInst, evalValue,
        Frame.setReg]
      exact Nat.mod_eq_of_lt h15
    · have := exec_additionEncrypted w (s (p + 1) % 2 ^ w) (s (p + 2) % 2 ^ w) h15 mc fr
      simpa [additionResult, Function.instructions] using this

theorem addition_scenario_witness :
    ((32 : Nat) = 8 ∨ (32 : Nat) = 16 ∨ (32 : Nat) = 32 ∨ (32 : Nat) = 64) ∧
    ∃ st1 : PassState,
      runOnModule defaultPass keepXor 2
        { M := additionModule 32, rng := constantSource 7, errs := [], obfedbos := [] }
        = some (true, st1) ∧
      st1.M.functions = [additionResult 32 7 7] := by
  refine ⟨by decide, ?_⟩
  obtain ⟨st1, h, hf, -⟩ :=
    addition_scenario 32 (by decide) (constantSource 7) keepXor 0 true
  exact ⟨st1, h, hf⟩

/-- Claim C9, evaluated where it fails: for the global `G` initialized to 42
and the key 5, in a function that loads `G`, stores the loaded value back and
returns it, `HandleConstantIntInitializerGV` masks the initializer to 47 and
leaves the return with the operand `(load XOR 5) XOR 5`: run on a memory that
holds the masked 47, the return receives 47, not the logical value
`47 XOR 5 = 42`. -/
theorem load_consumer_receives_masked_value :
    ((HandleConstantIntInitializerGV defaultPass keepXor
        { M := loadStoreRetModule, rng := constantSource 5, errs := [], obfedbos := [] }
        100).M.findGlobal 100).bind (fun G => G.init)
      = some (Value.constInt ⟨32, 47⟩) ∧
    (HandleConstantIntInitializerGV defaultPass keepXor
        { M := loadStoreRetModule, rng := constantSource 5, errs := [], obfedbos := [] }
        100).M.instructions
      = [ mkInst 1 Opcode.load [Value.global 100] (some 32),
          createXor 201 (Value.inst 1) (Value.constInt ⟨32, 5⟩) 32,
          createXor 200 (Value.inst 201) (Value.constInt ⟨32, 5⟩) 32,
          mkInst 2 Opcode.store [Value.inst 200, Value.global 100] none,
          mkInst 3 Opcode.ret [Value.inst 200] none ] ∧
    evalValue sampleMachine
      (execInsts sampleMachine { regs := fun _ => 0, mem := fun _ => 47 }
        (HandleConstantIntInitializerGV defaultPass keepXor
          { M := loadStoreRetModule, rng := constantSource 5, errs := [], obfedbos := [] }
          100).M.instructions)
      (Value.inst 200) = 47 ∧
    47 ^^^ 5 = 42 := by
  refine ⟨by decide, by decide, by decide, by decide⟩

/-- Claim C10 as stated fails: for a one-bit global initialized to 1 and the
8-bit draw 2, which is not zero, the initializer stored by
`HandleConstantIntInitializerGV` is still 1. -/
theorem one_bit_initializer_unchanged_by_even_key :
    (CryptoUtils.get_uint8_t (constantSource 2)).1 = 2 ∧
    ((HandleConstantIntInitializerGV defaultPass keepXor
        { M := boolGlobalModule, rng := constantSource 2, errs := [], obfedbos := [] }
        100).M.findGlobal 100).bind (fun G => G.init)
      = some (Value.constInt ⟨1, 1⟩) := by
  refine ⟨by decide, by decide⟩

/-- Claim C10, amended: for a global whose initializer is a literal of width
1, 8, 16, 32 or 64, and a substitution collaborator that leaves the globals
alone, the initializer after `HandleConstantIntInitializerGV` is not the
original literal whenever the draw reduced to the literal's width is not zero
(for the widths 8 to 64 that is the drawn key itself, for the width 1 its
lowest bit). -/
theorem initializer_differs_unless_truncated_key_zero (self : ConstantEncryption)
    (ext : SubstituteImpl) (st : PassState) (g : Nat) (C : ConstantInt)
    (hw : C.width = 1 ∨ C.width = 8 ∨ C.width = 16 ∨ C.width = 32 ∨ C.width = 64)
    (hv : C.val < 2 ^ C.width)
    (hg : (st.M.findGlobal g).bind (fun G => G.init) = some (Value.constInt C))
    (hsub : ∀ st x, (ext.substituteXor st x).M.globals = st.M.globals)
    (hK : (st.rng.draw).1 % 2 ^ C.width ≠ 0) :
    ((HandleConstantIntInitializerGV self ext st g).M.findGlobal g).bind (fun G => G.init)
      ≠ some (Value.constInt C) := by
  obtain ⟨Key, New, hp, -, -, hk, hn, -, -, -⟩ := PairConstantInt_spec st.rng C hw hv
  have hne : New ≠ C := by
    intro h
    rw [h] at hn
    rw [← hk] at hK
    exact xor_ne_self _ _ hK hn.symm
  have h1 : (PairConstantInt st.rng C).1.1 = some Key := by rw [hp]
  have h2 : (PairConstantInt st.rng C).1.2 = some New := by rw [hp]
  have hinv : initMasked g New (HandleConstantIntInitializerGV self ext st g).M := by
    unfold HandleConstantIntInitializerGV
    rw [hg]
    simp only [h1, h2]
    apply foldl_handleUser_initMasked self ext Key g New hsub
    exact initMasked_setInitializer g New st.M
  cases hf : (HandleConstantIntInitializerGV self ext st g).M.findGlobal g with
  | none => simp
  | some G =>
    show ¬ G.init = some (Value.constInt C)
    have hG : G ∈ (HandleConstantIntInitializerGV self ext st g).M.globals :=
      List.mem_of_find?_eq_some hf
    have hid : G.id = g := by
      have := List.find?_some hf
      simpa using this
    rcases hinv G hG hid with h | ⟨i, h⟩
    · rw [h]
      intro hc
      injection hc with hc
      injection hc with hc
      exact hne hc
    · rw [h]
      intro hc
      injection hc with hc
      exact Value.noConfusion hc

theorem initializer_differs_unless_truncated_key_zero_witness :
    (42 : Nat) < 2 ^ 32 ∧
    (loadStoreRetModule.findGlobal 100).bind (fun G => G.init)
      = some (Value.constInt ⟨32, 42⟩) ∧
    (∀ (st : PassState) (x : Nat), (keepXor.substituteXor st x).M.globals = st.M.globals) ∧
    ((constantSource 5).draw).1 % 2 ^ 32 ≠ 0 ∧
    ((HandleConstantIntInitializerGV defaultPass keepXor
        { M := loadStoreRetModule, rng := constantSource 5, errs := [], obfedbos := [] }
        100).M.findGlobal 100).bind (fun G => G.init)
      ≠ some (Value.constInt ⟨32, 42⟩) :=
  ⟨by decide, by decide, fun _ _ => rfl, by decide,
   initializer_differs_unless_truncated_key_zero defaultPass keepXor
    { M := loadStoreRetModule, rng := constantSource 5, errs := [], obfedbos := [] }
    100 ⟨32, 42⟩ (by decide) (by decide) (by decide) (fun _ _ => rfl) (by decide)⟩

/-- Claim C11: for a literal whose width is none of 1, 8, 16, 32, 64,
`PairConstantInt` returns the pair (null, null) and the random source as it
was; `HandleConstantIntOperand` on an operand that is such a literal, and
`HandleConstantIntInitializerGV` on a global whose initializer is such a
literal, return the pass state they were given: no instruction is inserted,
no operand, initializer, load or store changes, no random value is drawn. -/
theorem unsupported_width_left_untouched (self : ConstantEncryption) (ext : SubstituteImpl)
    (C : ConstantInt)
    (hw : C.width ≠ 1 ∧ C.width ≠ 8 ∧ C.width ≠ 16 ∧ C.width ≠ 32 ∧ C.width ≠ 64) :
    (∀ rng : CryptoUtils, PairConstantInt rng C = ((none, none), rng)) ∧
    (∀ (st : PassState) (I opindex : Nat),
      (st.M.findInst I).bind (fun J => J.operands.get? opindex) = some (Value.constInt C) →
      HandleConstantIntOperand self ext st I opindex = st) ∧
    (∀ (st : PassState) (GVPtr : Nat),
      (st.M.findGlobal GVPtr).bind (fun G => G.init) = some (Value.constInt C) →
      HandleConstantIntInitializerGV self ext st GVPtr = st) := by
  refine ⟨fun rng => PairConstantInt_unsupported rng C hw, ?_, ?_⟩
  · intro st I opindex h
    unfold HandleConstantIntOperand
    rw [h]
    simp only [PairConstantInt_unsupported st.rng C hw]
  · intro st g h
    unfold HandleConstantIntInitializerGV
    rw [h]
    simp only [PairConstantInt_unsupported st.rng C hw]

theorem unsupported_width_left_untouched_witness :
    ((24 : Nat) ≠ 1 ∧ (24 : Nat) ≠ 8 ∧ (24 : Nat) ≠ 16 ∧ (24 : Nat) ≠ 32 ∧ (24 : Nat) ≠ 64) ∧
    (oddWidthModule.findInst 2).bind (fun J => J.operands.get? 1)
      = some (Value.constInt ⟨24, 5⟩) ∧
    (oddWidthModule.findGlobal 100).bind (fun G => G.init) = some (Value.constInt ⟨24, 5⟩) ∧
    (HandleConstantIntOperand defaultPass keepXor
      { M := oddWidthModule, rng := constantSource 9, errs := [], obfedbos := [] } 2 1).M
      = oddWidthModule ∧
    (HandleConstantIntInitializerGV defaultPass keepXor
      { M := oddWidthModule, rng := constantSource 9, errs := [], obfedbos := [] } 100).M
      = oddWidthModule := by
  obtain ⟨-, h2, h3⟩ := unsupported_width_left_untouched defaultPass keepXor ⟨24, 5⟩
    (by decide)
  refine ⟨by decide, by decide, by decide, ?_, ?_⟩
  · rw [h2 _ 2 1 (by decide)]
  · rw [h3 _ 100 (by decide)]

/-- Claim C12 as stated fails: in the sample function, whose entry block is a
debug marker, an addition and a branch, the first real instruction is the
addition; after `HandleInlineHookAArch64` the head block A holds the marker
and the branch to Detect but not the addition, and the continuation block C
begins with the addition itself, not with the instruction that followed it. -/
theorem first_real_instruction_moves_to_continuation :
    sampleEntry.firstReal = some (mkInst 2 Opcode.add [Value.arg 0, Value.arg 1] (some 32)) ∧
    ((HandleInlineHookAArch64 sampleAntiHook sampleModule (constantSource 7) sampleFunction).map
      fun r => r.1.blocks.take 2) = some
        [ { label := 0, name := "entry",
            insts := [mkInst 1 Opcode.dbgInfoIntrinsic [] none,
                      mkInst 105 Opcode.br [Value.block 102] none] },
          { label := 100, name := "",
            insts := [mkInst 2 Opcode.add [Value.arg 0, Value.arg 1] (some 32),
                      mkInst 3 Opcode.br [Value.block 1] none] } ] ∧
    ((HandleInlineHookAArch64 sampleAntiHook sampleModule (constantSource 7) sampleFunction).map
      fun r => (r.1.blocks.take 1).map fun b =>
        b.insts.contains (mkInst 2 Opcode.add [Value.arg 0, Value.arg 1] (some 32)))
      = some [false] ∧
    ((HandleInlineHookAArch64 sampleAntiHook sampleModule (constantSource 7) sampleFunction).map
      fun r => ((r.1.blocks.drop 1).take 1).map fun b => b.insts.head?)
      = some [some (mkInst 2 Opcode.add [Value.arg 0, Value.arg 1] (some 32))] := by
  refine ⟨by decide, by decide, by decide, by decide⟩

/-- Claim C12, amended: `HandleInlineHookAArch64` splits the entry block
immediately before its first real instruction `I`: the head block A keeps its
label and holds only the PHI, debug and lifetime markers that preceded `I`,
closed by the branch to Detect; the continuation block C, placed right after
A with the label `fresh`, holds the rest of the original block in order and
begins with `I`. -/
theorem entry_split_before_first_real_instruction (self : AntiHook) (M : Module)
    (rng : CryptoUtils) (F : Function) (A : BasicBlock) (rest : List BasicBlock)
    (I : Instruction)
    (hF : F.blocks = A :: rest) (hI : A.firstReal = some I) :
    ∃ F1 M1 rng1 Ahead Cblock tail,
      HandleInlineHookAArch64 self M rng F = some (F1, M1, rng1) ∧
      F1.blocks = Ahead :: Cblock :: tail ∧
      Ahead.label = A.label ∧ Cblock.label = M.fresh ∧
      Ahead.insts = (A.insts.takeWhile fun J => J.isPHIOrDbgOrLifetime) ++
        [mkInst (M.fresh + 5) Opcode.br [Value.block (M.fresh + 2)] none] ∧
      (∀ J ∈ A.insts.takeWhile fun J => J.isPHIOrDbgOrLifetime,
        J.isPHIOrDbgOrLifetime = true) ∧
      Cblock.insts = (A.insts.dropWhile fun J => J.isPHIOrDbgOrLifetime) ∧
      Cblock.insts.head? = some I ∧
      (A.insts.takeWhile fun J => J.isPHIOrDbgOrLifetime) ++ Cblock.insts = A.insts := by
  have hh : (A.insts.dropWhile fun J => J.isPHIOrDbgOrLifetime).head? = some I := by
    rw [head_dropWhile_eq_find]; exact hI
  have hA : (A.insts.dropWhile fun J => J.isPHIOrDbgOrLifetime) ≠ [] := by
    intro h0; rw [h0] at hh; simp at hh
  refine ⟨_, _, _, _, _, _, HandleInlineHookAArch64_some self M rng F A rest hF hA, rfl, rfl,
    rfl, rfl, ?_, rfl, hh, List.takeWhile_append_dropWhile _ _⟩
  intro J hJ
  exact List.mem_takeWhile_imp hJ

theorem entry_split_before_first_real_instruction_witness :
    sampleFunction.blocks = sampleEntry :: [sampleExit] ∧
    sampleEntry.firstReal = some (mkInst 2 Opcode.add [Value.arg 0, Value.arg 1] (some 32)) ∧
    ∃ F1 M1 rng1,
      HandleInlineHookAArch64 sampleAntiHook sampleModule (constantSource 7) sampleFunction
        = some (F1, M1, rng1) := by
  refine ⟨rfl, by decide, ?_⟩
  obtain ⟨F1, M1, rng1, -, -, -, h, -⟩ :=
    entry_split_before_first_real_instruction sampleAntiHook sampleModule (constantSource 7)
      sampleFunction sampleEntry [sampleExit] _ rfl (by decide :
        sampleEntry.firstReal = some (mkInst 2 Opcode.add [Value.arg 0, Value.arg 1] (some 32)))
  exact ⟨F1, M1, rng1, h⟩

/-- Claim C13, evaluated where it fails: for a function that stores `arg + 1`
to the encrypted global and also returns it, `HandleConstantIntInitializerGV`
with the key 5 redirects the operand of the return, too, to the inserted XOR:
the return received 1 (for the argument 0) before the rewrite and receives
`1 XOR 5 = 4` after it. -/
theorem other_consumer_of_stored_value_redirected :
    (HandleConstantIntInitializerGV defaultPass keepXor
        { M := incStoreRetModule, rng := constantSource 5, errs := [], obfedbos := [] }
        100).M.instructions
      = [ mkInst 1 Opcode.add [Value.arg 0, Value.constInt ⟨32, 1⟩] (some 32),
          createXor 200 (Value.inst 1) (Value.constInt ⟨32, 5⟩) 32,
          mkInst 2 Opcode.store [Value.inst 200, Value.global 100] none,
          mkInst 3 Opcode.ret [Value.inst 200] none ] ∧
    evalValue sampleMachine
      (execInsts sampleMachine { regs := fun _ => 0, mem := fun _ => 42 }
        incStoreRetModule.instructions) (Value.inst 1) = 1 ∧
    evalValue sampleMachine
      (execInsts sampleMachine { regs := fun _ => 0, mem := fun _ => 47 }
        (HandleConstantIntInitializerGV defaultPass keepXor
          { M := incStoreRetModule, rng := constantSource 5, errs := [], obfedbos := [] }
          100).M.instructions) (Value.inst 200) = 4 := by
  refine ⟨by decide, by decide, by decide⟩

/-- Claim C14, evaluated where it fails: for an 8-bit global initialized to 7
in a function that loads it, stores the loaded value back and adds one to the
loaded value, two applications of `HandleConstantIntInitializerGV` with the
keys 5 and 3 leave the initializer `7 XOR 5 XOR 3 = 1`, but the addition, a
consumer of the load, is left with the operand
`(((load XOR 3) XOR 5) XOR 5) XOR 3`: on the memory that holds 1 it receives 1,
not `1 XOR 5 XOR 3 = 7`, and yields 2 where the original function yields 8. -/
theorem second_encryption_unmasks_load_consumer :
    ((HandleConstantIntInitializerGV defaultPass keepXor
        (HandleConstantIntInitializerGV defaultPass keepXor
          { M := copyBackModule, rng := listSource [5, 3], errs := [], obfedbos := [] } 100)
        100).M.findGlobal 100).bind (fun G => G.init)
      = some (Value.constInt ⟨8, 1⟩) ∧
    (7 ^^^ 5 ^^^ 3 = 1) ∧
    (HandleConstantIntInitializerGV defaultPass keepXor
        (HandleConstantIntInitializerGV defaultPass keepXor
          { M := copyBackModule, rng := listSource [5, 3], errs := [], obfedbos := [] } 100)
        100).M.instructions
      = [ mkInst 1 Opcode.load [Value.global 100] (some 8),
          createXor 203 (Value.inst 1) (Value.constInt ⟨8, 3⟩) 8,
          createXor 201 (Value.inst 203) (Value.constInt ⟨8, 5⟩) 8,
          createXor 200 (Value.inst 201) (Value.constInt ⟨8, 5⟩) 8,
          createXor 202 (Value.inst 200) (Value.constInt ⟨8, 3⟩) 8,
          mkInst 2 Opcode.store [Value.inst 202, Value.global 100] none,
          mkInst 3 Opcode.add [Value.inst 202, Value.constInt ⟨8, 1⟩] (some 8),
          mkInst 4 Opcode.ret [Value.inst 3] none ] ∧
    (execInsts sampleMachine { regs := fun _ => 0, mem := fun _ => 7 }
        copyBackModule.instructions).regs 3 = 8 ∧
    evalValue sampleMachine
      (execInsts sampleMachine { regs := fun _ => 0, mem := fun _ => 1 }
        (HandleConstantIntInitializerGV defaultPass keepXor
          (HandleConstantIntInitializerGV defaultPass keepXor
            { M := copyBackModule, rng := listSource [5, 3], errs := [], obfedbos := [] } 100)
          100).M.instructions) (Value.inst 202) = 1 ∧
    (execInsts sampleMachine { regs := fun _ => 0, mem := fun _ => 1 }
        (HandleConstantIntInitializerGV defaultPass keepXor
          (HandleConstantIntInitializerGV defaultPass keepXor
            { M := copyBackModule, rng := listSource [5, 3], errs := [], obfedbos := [] } 100)
          100).M.instructions).regs 3 = 2 := by
  refine ⟨by decide, by decide, by decide, by decide, by decide, by decide⟩

end Hikari
